import Mathlib

/-!
Verification development for the referral ledger engine of the MSTC bot
backend (`backend/app.py`).

The embedding below translates the Python source into Lean:

* Python `float` money values are modelled as exact rationals `ℚ`;
  `round(x, 2)` is modelled by `round2`, rounding to a whole number of
  cents (half-up; no statement in this development depends on the
  behaviour at exact half-cent ties, which Python resolves half-even
  over binary floats).
* The SQLAlchemy session is modelled as a list of user records; `db.get`
  / `query(...).first()` become a first-match lookup and in-place
  mutation of an ORM object becomes replacement of the record in the
  list.  The `club_income` column is added by the repository's
  `add_wallet_column.py` migration (app code reads it with an
  `or 0.0` default), so it is a plain rational field here.
* Python truthiness tests on integers (`if not uid`, `while
  current.referrer_id`) are modelled by explicit `≠ 0` / `Option` tests.
* Profile-only fields (username, first_name, wallet address, timestamps)
  play no role in any claim and are omitted.
-/

/-- Rounding to two decimal places, the model of Python `round(x, 2)`. -/
def round2 (q : ℚ) : ℚ := ((⌊q * 100 + 1 / 2⌋ : ℤ) : ℚ) / 100

/-- ASCII lower-casing of one character, the model of `str.lower()`
applied character-wise. -/
def lowerChar (c : Char) : Char :=
  if 'A' ≤ c ∧ c ≤ 'Z' then Char.ofNat (c.toNat + 32) else c

/-- ASCII lower-casing, the model of Python `str.lower()` (all role
strings written by the backend are ASCII). -/
def lowerString (s : String) : String := String.mk (s.data.map lowerChar)

/-- One row of the `users` table (`backend/models.py`), restricted to the
fields the referral ledger engine reads or writes.  A `None` role is
modelled as `""`. -/
structure UserRec where
  id : Int
  telegramId : Int := 0
  role : String := "user"
  selfActivated : Bool := false
  totalTeamBusiness : ℚ := 0
  activeOriginCount : Int := 0
  clubIncome : ℚ := 0
  balanceMusd : ℚ := 0
  balanceMstc : ℚ := 0
  referrerId : Option Int := none
  deriving DecidableEq, Repr

/-- The database: the list of user rows. -/
abbrev DB := List UserRec

/-- `db.get(User, i)` / `db.query(User).filter_by(id=i).first()`: the
first row with the given id. -/
def getUser (db : DB) (i : Int) : Option UserRec :=
  match db with
  | [] => none
  | u :: rest => if u.id = i then some u else getUser rest i

/-- Writing a mutated ORM object back: replace the first row with the
same id, or append the row if none exists (`db.add` of a new object). -/
def setUser (db : DB) (u : UserRec) : DB :=
  match db with
  | [] => [u]
  | v :: rest => if v.id = u.id then u :: rest else v :: setUser rest u

/-- `update_rank` (`backend/app.py:616`): recompute `user.role` from
`total_team_business`, `active_origin_count` and `self_activated`; the
final branch keeps an already-set role and only writes `"user"` when the
role is unset. -/
def updateRank (u : UserRec) : UserRec :=
  let total := u.totalTeamBusiness
  let activeOrigins := u.activeOriginCount
  if total ≥ 100000 then { u with role := "creator" }
  else if total ≥ 25000 then { u with role := "visionary" }
  else if total ≥ 5000 then { u with role := "advisor" }
  else if total ≥ 1000 ∧ activeOrigins ≥ 10 then { u with role := "life_changer" }
  else if u.selfActivated then { u with role := "origin" }
  else if u.role = "" then { u with role := "user" } else u

/-- `ROLE_LEVEL1_PCT` (`backend/app.py:637`), with the dictionary
`.get(role_key, 0.0)` default. -/
def ROLE_LEVEL1_PCT (role : String) : ℚ :=
  if role = "origin" then 5 / 100
  else if role = "life_changer" then 10 / 100
  else if role = "advisor" then 15 / 100
  else if role = "visionary" then 20 / 100
  else if role = "creator" then 25 / 100
  else 0

/-- `COMPANY_USER_ID` (`backend/app.py:710`). -/
def COMPANY_USER_ID : Int := -999999999

/-- `get_company_user` (`backend/app.py:713`): fetch the company pool
row, creating it if absent. -/
def getCompanyUser (db : DB) : DB × UserRec :=
  match getUser db COMPANY_USER_ID with
  | some company => (db, company)
  | none =>
    let company : UserRec :=
      { id := COMPANY_USER_ID, telegramId := COMPANY_USER_ID,
        role := "company", selfActivated := false }
    (setUser db company, company)

/-- `add_to_company_pool` (`backend/app.py:736`): add a positive amount
to the company pool's MUSD balance; non-positive amounts are ignored. -/
def addToCompanyPool (db : DB) (amount : ℚ) : DB :=
  if amount ≤ 0 then db
  else
    let (db1, company) := getCompanyUser db
    setUser db1 { company with balanceMusd := company.balanceMusd + amount }

/-- `propagate_team_business` (`backend/app.py:646`): walk the referrer
chain, adding the amount to every upline's team business, bumping the
active-origin counter when the depositor just became Origin, and
re-ranking each upline.  The `while` loop stops silently at the root, at
a missing row, or when the next referrer is already in `visited`.  The
loop is driven by `fuel` (any value at least `db.length` is enough,
since every iteration consumes a distinct existing row); the returned
list is the trace of upline ids processed, in order. -/
def propagateTeamBusiness (amount : ℚ) (becameOriginNow : Bool) :
    Nat → DB → List Int → Option Int → DB × List Int
  | 0, db, _, _ => (db, [])
  | fuel + 1, db, visited, currentRef =>
    match currentRef with
    | none => (db, [])
    | some rid =>
      if rid = 0 ∨ rid ∈ visited then (db, [])
      else
        match getUser db rid with
        | none => (db, [])
        | some ref =>
          let ref1 := { ref with
            totalTeamBusiness := ref.totalTeamBusiness + amount,
            activeOriginCount :=
              ref.activeOriginCount + (if becameOriginNow then 1 else 0) }
          let ref2 := updateRank ref1
          let rest := propagateTeamBusiness amount becameOriginNow fuel
            (setUser db ref2) (rid :: visited) ref2.referrerId
          (rest.1, rid :: rest.2)

/-- Crediting `u.club_income` on the row with the given id (the model of
mutating the live ORM object). -/
def creditClubIncome (db : DB) (i : Int) (amount : ℚ) : DB :=
  match getUser db i with
  | none => db
  | some u => setUser db { u with clubIncome := u.clubIncome + amount }

/-- The role filter of the club-bonus achiever query
(`backend/app.py:678`). -/
def clubAchieverRoles : List String := ["life_changer", "advisor", "visionary", "creator"]

/-- `distribute_club_bonus` (`backend/app.py:669`): take 2% of the
deposit; give an equal rounded share to every activated achiever, or the
whole cut to the company pool when there are no achievers or the share
rounds to zero; add the leftover to the pool only when it is positive.
Returns the updated database and the function's return value. -/
def distributeClubBonus (db : DB) (amount : ℚ) : DB × ℚ :=
  let clubCut := round2 (amount * (2 / 100))
  if clubCut ≤ 0 then (db, 0)
  else
    let achievers := db.filter (fun u => u.selfActivated && clubAchieverRoles.contains u.role)
    if achievers.isEmpty then (addToCompanyPool db clubCut, clubCut)
    else
      let perUser := round2 (clubCut / achievers.length)
      if perUser ≤ 0 then (addToCompanyPool db clubCut, clubCut)
      else
        let db1 := achievers.foldl (fun d u => creditClubIncome d u.id perUser) db
        let distributedTotal := (achievers.length : ℚ) * perUser
        let leftover := round2 (clubCut - distributedTotal)
        (if leftover > 0 then addToCompanyPool db1 leftover else db1, clubCut)

/-- Auxiliary walk of `get_uplines` (`backend/app.py:169`): collect
`(level, row)` pairs up the referrer chain, at most `fuel` of them,
with no cycle guard. -/
def getUplinesAux (db : DB) : Nat → Nat → Option Int → List (Nat × UserRec)
  | 0, _, _ => []
  | fuel + 1, level, refId =>
    match refId with
    | none => []
    | some rid =>
      if rid = 0 then []
      else
        match getUser db rid with
        | none => []
        | some up => (level, up) :: getUplinesAux db fuel (level + 1) up.referrerId

/-- `get_uplines(db, user, max_levels=3)`. -/
def getUplines (db : DB) (uid : Int) : List (Nat × UserRec) :=
  match getUser db uid with
  | none => []
  | some u => getUplinesAux db 3 1 u.referrerId

/-- `(upline.role or "user").lower()` (`backend/app.py:998`). -/
def roleKey (u : UserRec) : String :=
  lowerString (if u.role = "" then "user" else u.role)

/-- The per-level percentage of the referral distribution:
`ROLE_LEVEL1_PCT` lookup for level 1, `LEVEL_BONUSES_FIXED` for levels 2
and 3, zero otherwise (`backend/app.py:987-1001`). -/
def levelPct (level : Nat) (u : UserRec) : ℚ :=
  if level = 1 then ROLE_LEVEL1_PCT (roleKey u)
  else if level = 2 then 3 / 100
  else if level = 3 then 2 / 100
  else 0

/-- The qualification rules of the referral distribution
(`backend/app.py:1008-1017`). -/
def levelQualifies (level : Nat) (u : UserRec) : Bool :=
  if level = 1 then u.selfActivated
  else if level = 2 then
    ["life_changer", "advisor", "visionary", "creator"].contains (roleKey u)
  else if level = 3 then
    ["advisor", "visionary", "creator"].contains (roleKey u)
  else false

/-- One entry of the `referral_dist` report list; a pool payout is
recorded with `level = 0` and no recipient (`backend/app.py:1032`). -/
structure DistLine where
  level : Nat
  toUserId : Option Int
  amount : ℚ
  deriving DecidableEq, Repr

/-- One iteration of the referral-distribution loop
(`backend/app.py:995-1037`): skip the level entirely when its percentage
is not positive; otherwise credit the rounded bonus to the upline's
`club_income` if they qualify, else to the company pool, appending the
corresponding line item. -/
def referralStep (amount : ℚ) (acc : DB × List DistLine) (lu : Nat × UserRec) :
    DB × List DistLine :=
  let pct := levelPct lu.1 lu.2
  if pct ≤ 0 then acc
  else
    let bonusAmount := round2 (amount * pct)
    if levelQualifies lu.1 lu.2 then
      (creditClubIncome acc.1 lu.2.id bonusAmount,
       acc.2 ++ [{ level := lu.1, toUserId := some lu.2.id, amount := bonusAmount }])
    else
      (addToCompanyPool acc.1 bonusAmount,
       acc.2 ++ [{ level := 0, toUserId := none, amount := bonusAmount }])

/-- The whole referral-distribution loop of `webapp_verify`. -/
def referralPhase (db : DB) (uid : Int) (amount : ℚ) : DB × List DistLine :=
  (getUplines db uid).foldl (referralStep amount) (db, [])

/-- A freshly created user row (`get_or_create_user`,
`backend/app.py:114-131`): role `"user"`, not activated, zero balances,
referrer set directly from the passed ref id. -/
def freshUser (uid : Int) (refId : Option Int) : UserRec :=
  { id := uid, telegramId := uid, role := "user", selfActivated := false,
    referrerId := refId }

/-- `get_or_create_user` (`backend/app.py:90`): create the row if
missing (taking the ref id as-is), else set the referrer only when it is
currently unset and a ref id was supplied.  No existence or
self-referral check is made on either path. -/
def getOrCreateUser (db : DB) (uid : Int) (refId : Option Int) : DB :=
  match getUser db uid with
  | none => setUser db (freshUser uid refId)
  | some u =>
    if u.referrerId = none ∧ refId ≠ none then setUser db { u with referrerId := refId }
    else db

/-- The force-link step of `webapp_verify` (`backend/app.py:954-957`):
link when the referrer is unset, the ref id is truthy and is not the
user itself.  The proposed referrer is not required to exist. -/
def forceLinkReferrer (db : DB) (uid : Int) (refId : Option Int) : DB :=
  match getUser db uid with
  | none => db
  | some u =>
    match refId with
    | none => db
    | some r =>
      if u.referrerId = none ∧ r ≠ 0 ∧ r ≠ uid then setUser db { u with referrerId := some r }
      else db

/-- Account resolution of `webapp_verify`: `get_or_create_user` followed
by the force-link step. -/
def resolvedDB (db : DB) (uid : Int) (refId : Option Int) : DB :=
  forceLinkReferrer (getOrCreateUser db uid refId) uid refId

/-- The activation check and self-business update of `webapp_verify`
(`backend/app.py:963-972`): a user who is not yet activated and deposits
at least 20 becomes Origin now; the deposit always counts toward the
user's own team business.  Returns the updated database and
`became_origin_now`. -/
def activateAndSelfVolume (db : DB) (uid : Int) (amount : ℚ) : DB × Bool :=
  match getUser db uid with
  | none => (db, false)
  | some u =>
    let became : Bool := !u.selfActivated && decide ((20 : ℚ) ≤ amount)
    let u1 := if became then { u with selfActivated := true, role := "origin" } else u
    let u2 := { u1 with totalTeamBusiness := u1.totalTeamBusiness + amount }
    (setUser db u2, became)

/-- `webapp_verify` up to and including the depositor's own re-rank
(`backend/app.py:944-978`): resolve and link the account, run the
activation check and self business, propagate team business up the
chain, then recompute the depositor's rank. -/
def stage1 (db : DB) (uid : Int) (amount : ℚ) (refId : Option Int) : DB :=
  let db1 := resolvedDB db uid refId
  let s := activateAndSelfVolume db1 uid amount
  let refOpt := (getUser s.1 uid).bind (fun u => u.referrerId)
  let p := propagateTeamBusiness amount s.2 s.1.length s.1 [] refOpt
  match getUser p.1 uid with
  | none => p.1
  | some u3 => setUser p.1 (updateRank u3)

/-- The JSON body returned by `webapp_verify` on success
(`backend/app.py:1041-1050`), restricted to the modelled fields. -/
structure DepositReport where
  amount : ℚ
  userId : Int
  selfActivated : Bool
  role : String
  referrerId : Option Int
  referralDist : List DistLine
  deriving DecidableEq, Repr

/-- `webapp_verify` (`backend/app.py:884-1062`), the deposit operation:
validate the input, resolve the account, activate, propagate, distribute
the club bonus and the referral commissions, and return the report.  The
route has no idempotency parameter: every accepted call applies its
effects. -/
def webappVerify (db : DB) (uid : Int) (amount : ℚ) (refId : Option Int) :
    Except String (DB × DepositReport) :=
  if amount ≤ 0 then .error "invalid_amount"
  else if uid = 0 then .error "invalid_init_data"
  else
    let db1 := stage1 db uid amount refId
    let c := distributeClubBonus db1 amount
    let r := referralPhase c.1 uid amount
    match getUser r.1 uid with
    | none => .error "server_error"
    | some u =>
      .ok (r.1,
        { amount := amount, userId := uid, selfActivated := u.selfActivated,
          role := u.role, referrerId := u.referrerId, referralDist := r.2 })

/-- `link_referrer_if_needed` (`backend/app.py:64`): link only when the
user has no referrer yet, the proposed referrer id is truthy, is not the
user itself, and the referrer row exists; otherwise do nothing. -/
def linkReferrerIfNeeded (db : DB) (uid : Int) (maybeReferrerId : Option Int) : DB :=
  match getUser db uid with
  | none => db
  | some user =>
    if user.referrerId ≠ none then db
    else
      match maybeReferrerId with
      | none => db
      | some r =>
        if r = 0 then db
        else if r = uid then db
        else
          match getUser db r with
          | none => db
          | some ref => setUser db { user with referrerId := some ref.id }

/-- One row of the `transactions` table (`backend/models.py`),
restricted to the fields the debug deposit route uses. -/
structure Txn where
  userId : Int
  amount : ℚ
  currency : String
  ttype : String
  externalId : Option String
  deriving DecidableEq, Repr

/-- Users plus transaction log, the state touched by
`debug_simulate_deposit`. -/
structure SimState where
  users : DB
  txs : List Txn
  deriving DecidableEq, Repr

/-- The JSON body returned by `debug_simulate_deposit`.  A duplicate
submission returns a summary of the current user state without the
`became_origin_now` and `company_pool` keys of a fresh run; `duplicate`
records which shape was returned. -/
structure SimResp where
  duplicate : Bool
  userId : Int
  amount : ℚ
  role : String
  selfActivated : Bool
  totalTeamBusiness : ℚ
  becameOriginNow : Option Bool
  companyPoolMusd : Option ℚ
  deriving DecidableEq, Repr

/-- `debug_simulate_deposit` (`backend/app.py:1351-1459`): the only
route with an idempotency check.  If `tx_musd` is already recorded among
the transactions, return the current state unchanged; otherwise activate
the user unconditionally, add the amount to their team business, credit
72% of it to the company pool if that row exists, and append the audit
transactions. -/
def debugSimulateDeposit (st : SimState) (tgId : Int) (amount : ℚ)
    (txMusd txMstc : Option String) : Except String (SimState × SimResp) :=
  if tgId = 0 then .error "missing_user_or_amount"
  else
    match List.find? (fun u => u.telegramId == tgId) st.users with
    | none => .error "user_not_found"
    | some user =>
      let dup := match txMusd with
        | some e => st.txs.any (fun t => t.externalId == some e)
        | none => false
      if dup then
        .ok (st,
          { duplicate := true, userId := user.id, amount := amount,
            role := user.role, selfActivated := user.selfActivated,
            totalTeamBusiness := user.totalTeamBusiness,
            becameOriginNow := none, companyPoolMusd := none })
      else
        let became := !user.selfActivated
        let user1 :=
          { user with
            selfActivated := true,
            totalTeamBusiness := user.totalTeamBusiness + amount }
        let users1 := setUser st.users user1
        let afterPool := match getUser users1 COMPANY_USER_ID with
          | some company =>
            let newMusd := company.balanceMusd + amount * (72 / 100)
            (setUser users1 { company with balanceMusd := newMusd }, some newMusd)
          | none => (users1, none)
        let tx1 : Txn := { userId := user.id, amount := amount, currency := "MUSD",
                           ttype := "deposit", externalId := txMusd }
        let txs1 := st.txs ++ [tx1]
        let txs2 := match txMstc with
          | some e =>
            txs1 ++ [{ userId := user.id, amount := 0, currency := "MSTC",
                       ttype := "credit_mstc", externalId := some e }]
          | none => txs1
        .ok ({ users := afterPool.1, txs := txs2 },
          { duplicate := false, userId := user.id, amount := amount,
            role := user1.role, selfActivated := user1.selfActivated,
            totalTeamBusiness := user1.totalTeamBusiness,
            becameOriginNow := some became, companyPoolMusd := afterPool.2 })

/-- The rank evaluator exactly as the specification's §4.2 words it
(highest threshold first, `else → unranked`), written here only to be
compared with the implemented `updateRank`; the implementation's name
for the unranked tier is `"user"`. -/
def specEvaluateRank (teamVolume : ℚ) (activeDescendants : Int) (activated : Bool) : String :=
  if teamVolume ≥ 100000 then "creator"
  else if teamVolume ≥ 25000 then "visionary"
  else if teamVolume ≥ 5000 then "advisor"
  else if teamVolume ≥ 1000 ∧ activeDescendants ≥ 10 then "life_changer"
  else if activated then "origin"
  else "user"

/-- Numeric height of a role in the tier order
`unranked < origin < life_changer < advisor < visionary < creator`;
every string outside the five ranked tiers is unranked. -/
def rankVal (role : String) : Nat :=
  if role = "creator" then 5
  else if role = "visionary" then 4
  else if role = "advisor" then 3
  else if role = "life_changer" then 2
  else if role = "origin" then 1
  else 0

/-- The rank height `update_rank`'s threshold chain assigns to the given
metrics (0 when no branch fires). -/
def metricsVal (teamVolume : ℚ) (activeDescendants : Int) (activated : Bool) : Nat :=
  rankVal (specEvaluateRank teamVolume activeDescendants activated)

/-- One rank-relevant event applied to a single account by a processed
deposit: team business grows by `da ≥ 0`, the active-origin counter by
`dd ≥ 0`, activation can only be switched on (setting the role to
`"origin"` as the activation check does), and the rank is then
re-evaluated by `update_rank`. -/
structure RankEvent where
  da : ℚ
  dd : Int
  activate : Bool
  deriving DecidableEq, Repr

/-- Apply one `RankEvent` (growth, optional activation, re-rank). -/
def applyRankEvent (u : UserRec) (e : RankEvent) : UserRec :=
  let u1 := { u with
    totalTeamBusiness := u.totalTeamBusiness + e.da,
    activeOriginCount := u.activeOriginCount + e.dd,
    selfActivated := u.selfActivated || e.activate,
    role := if e.activate && !u.selfActivated then "origin" else u.role }
  updateRank u1

/-- Apply a list of `RankEvent`s in order. -/
def applyRankEvents (u : UserRec) (es : List RankEvent) : UserRec :=
  es.foldl applyRankEvent u

/-- Team volume of the row with id `v` (0 when the row is absent). -/
def tvOf (db : DB) (v : Int) : ℚ :=
  ((getUser db v).map (fun u => u.totalTeamBusiness)).getD 0

/-- Active-origin count of the row with id `v`. -/
def adcOf (db : DB) (v : Int) : Int :=
  ((getUser db v).map (fun u => u.activeOriginCount)).getD 0

/-- Activation flag of the row with id `v`. -/
def actOf (db : DB) (v : Int) : Bool :=
  ((getUser db v).map (fun u => u.selfActivated)).getD false

/-- Secondary (MSTC) balance of the row with id `v`. -/
def mstcOf (db : DB) (v : Int) : ℚ :=
  ((getUser db v).map (fun u => u.balanceMstc)).getD 0

/-- Primary (MUSD) balance of the row with id `v`. -/
def musdOf (db : DB) (v : Int) : ℚ :=
  ((getUser db v).map (fun u => u.balanceMusd)).getD 0

/-- Club income of the row with id `v`. -/
def clubOf (db : DB) (v : Int) : ℚ :=
  ((getUser db v).map (fun u => u.clubIncome)).getD 0

/-- Referrer link of the row with id `v`. -/
def refOf (db : DB) (v : Int) : Option Int :=
  ((getUser db v).map (fun u => u.referrerId)).getD none

/-- All money a row has been credited: both balances plus club income. -/
def creditOf (u : UserRec) : ℚ := u.balanceMusd + u.balanceMstc + u.clubIncome

/-- Total credited money across the database. -/
def dbCredit (db : DB) : ℚ := (db.map creditOf).sum

/-- The database state after one call of the deposit route: the new
state on success, the old state on a rejected request (the route rolls
back on failure). -/
def processDeposit (db : DB) (uid : Int) (amount : ℚ) (refId : Option Int) : DB :=
  match webappVerify db uid amount refId with
  | .ok p => p.1
  | .error _ => db

/-- The state after a sequence of deposits `(amount, ref)` by the same
account. -/
def processDeposits (db : DB) (uid : Int) (ds : List (ℚ × Option Int)) : DB :=
  ds.foldl (fun d p => processDeposit d uid p.1 p.2) db

/-- The line-item list a referral fold produces: one line per upline with
a positive percentage. -/
def expectedLines (A : ℚ) (ups : List (Nat × UserRec)) : List DistLine :=
  ups.filterMap (fun lu =>
    if 0 < levelPct lu.1 lu.2 then
      some (if levelQualifies lu.1 lu.2 then
        ⟨lu.1, some lu.2.id, round2 (A * levelPct lu.1 lu.2)⟩
      else
        ⟨0, none, round2 (A * levelPct lu.1 lu.2)⟩)
    else none)

/-- The reachability invariant of the rank system: the stored role never
stands above what the current metrics justify.  Every account the
backend creates starts with role `"user"` (height 0) and satisfies it. -/
def rankInvariant (u : UserRec) : Prop :=
  rankVal u.role ≤ metricsVal u.totalTeamBusiness u.activeOriginCount u.selfActivated

/-! ### Store lemmas -/

@[simp]
theorem getUser_setUser (db : DB) (u : UserRec) (v : Int) :
    getUser (setUser db u) v = if u.id = v then some u else getUser db v := by
  induction db with
  | nil =>
    by_cases hv : u.id = v
    · simp [getUser, setUser, hv]
    · simp [getUser, setUser, hv]
  | cons w rest ih =>
    simp only [setUser]
    by_cases hw : w.id = u.id
    · rw [if_pos hw]
      by_cases hv : u.id = v
      · simp [getUser, hv]
      · have hwv : ¬ w.id = v := by rw [hw]; exact hv
        simp [getUser, hv, hwv]
    · rw [if_neg hw]
      by_cases hwv : w.id = v
      · have hv : ¬ u.id = v := fun h => hw (hwv.trans h.symm)
        simp [getUser, hwv, hv]
      · simp [getUser, hwv, ih]

theorem dbCredit_setUser_of_get {db : DB} {w : UserRec} (u : UserRec)
    (h : getUser db u.id = some w) :
    dbCredit (setUser db u) = dbCredit db + creditOf u - creditOf w := by
  induction db with
  | nil => simp [getUser] at h
  | cons x rest ih =>
    by_cases hx : x.id = u.id
    · rw [getUser, if_pos hx] at h
      obtain rfl : x = w := Option.some.inj h
      simp only [setUser, if_pos hx, dbCredit, List.map_cons, List.sum_cons]
      ring
    · rw [getUser, if_neg hx] at h
      simp only [setUser, if_neg hx, dbCredit, List.map_cons, List.sum_cons]
      have := ih h
      simp only [dbCredit] at this
      rw [this]
      ring

theorem dbCredit_setUser_of_none {db : DB} (u : UserRec)
    (h : getUser db u.id = none) :
    dbCredit (setUser db u) = dbCredit db + creditOf u := by
  induction db with
  | nil => simp [setUser, dbCredit, creditOf]
  | cons x rest ih =>
    by_cases hx : x.id = u.id
    · rw [getUser, if_pos hx] at h
      exact absurd h (by simp)
    · rw [getUser, if_neg hx] at h
      simp only [setUser, if_neg hx, dbCredit, List.map_cons, List.sum_cons]
      have := ih h
      simp only [dbCredit] at this
      rw [this]
      ring

theorem getUser_id {db : DB} {i : Int} {u : UserRec} (h : getUser db i = some u) :
    u.id = i := by
  induction db with
  | nil => simp [getUser] at h
  | cons w rest ih =>
    rw [getUser] at h
    by_cases hw : w.id = i
    · rw [if_pos hw] at h
      exact (Option.some.inj h) ▸ hw
    · rw [if_neg hw] at h
      exact ih h

theorem getUser_isSome_setUser {db : DB} {v : Int} (u : UserRec)
    (h : (getUser db v).isSome) : (getUser (setUser db u) v).isSome := by
  rw [getUser_setUser]
  by_cases hid : u.id = v
  · simp [hid]
  · simpa [hid] using h

/-! ### `updateRank` only rewrites the role -/

theorem updateRank_keeps (u : UserRec) :
    (updateRank u).id = u.id ∧ (updateRank u).telegramId = u.telegramId ∧
    (updateRank u).selfActivated = u.selfActivated ∧
    (updateRank u).totalTeamBusiness = u.totalTeamBusiness ∧
    (updateRank u).activeOriginCount = u.activeOriginCount ∧
    (updateRank u).clubIncome = u.clubIncome ∧
    (updateRank u).balanceMusd = u.balanceMusd ∧
    (updateRank u).balanceMstc = u.balanceMstc ∧
    (updateRank u).referrerId = u.referrerId := by
  refine ⟨?_, ?_, ?_, ?_, ?_, ?_, ?_, ?_, ?_⟩ <;>
    (dsimp only [updateRank]; split_ifs <;> rfl)

theorem creditOf_updateRank (u : UserRec) : creditOf (updateRank u) = creditOf u := by
  have h := updateRank_keeps u
  simp [creditOf, h.2.2.2.2.2.1, h.2.2.2.2.2.2.1, h.2.2.2.2.2.2.2.1]

/-! ### Rounding lemmas -/

theorem round2_zero : round2 0 = 0 := by norm_num [round2]

theorem round2_nonneg {q : ℚ} (h : 0 ≤ q) : 0 ≤ round2 q := by
  unfold round2
  have h0 : ((1 : ℚ) / 2) ≤ q * 100 + 1 / 2 := by nlinarith
  have hhalf : ⌊(1 : ℚ) / 2⌋ = 0 := by norm_num
  have h1 : (0 : ℤ) ≤ ⌊q * 100 + 1 / 2⌋ := hhalf ▸ Int.floor_le_floor h0
  have h2 : (0 : ℚ) ≤ (⌊q * 100 + 1 / 2⌋ : ℚ) := by exact_mod_cast h1
  linarith

theorem round2_cents (k : ℤ) : round2 ((k : ℚ) / 100) = (k : ℚ) / 100 := by
  unfold round2
  have h1 : (k : ℚ) / 100 * 100 + 1 / 2 = (k : ℚ) + 1 / 2 := by ring
  rw [h1, Int.floor_int_add]
  norm_num

/-- Every value of `round2` is a whole number of cents. -/
theorem round2_exists_cents (q : ℚ) : ∃ k : ℤ, round2 q = (k : ℚ) / 100 :=
  ⟨⌊q * 100 + 1 / 2⌋, rfl⟩

/-! ### Propagation lemmas -/

theorem propagate_getUser_map {α : Type} (f : UserRec → α) (A : ℚ) (b : Bool)
    (hf : ∀ u : UserRec, f (updateRank { u with
        totalTeamBusiness := u.totalTeamBusiness + A,
        activeOriginCount := u.activeOriginCount + (if b then 1 else 0) }) = f u) :
    ∀ (fuel : Nat) (db : DB) (visited : List Int) (cur : Option Int) (v : Int),
      (getUser (propagateTeamBusiness A b fuel db visited cur).1 v).map f
        = (getUser db v).map f := by
  intro fuel
  induction fuel with
  | zero => intro db visited cur v; rfl
  | succ n ih =>
    intro db visited cur v
    match cur with
    | none => rfl
    | some rid =>
      simp only [propagateTeamBusiness]
      by_cases hstop : rid = 0 ∨ rid ∈ visited
      · rw [if_pos hstop]
      · rw [if_neg hstop]
        cases hget : getUser db rid with
        | none => rfl
        | some ref =>
          dsimp only
          rw [ih]
          have hid : (updateRank { ref with
              totalTeamBusiness := ref.totalTeamBusiness + A,
              activeOriginCount := ref.activeOriginCount + (if b then 1 else 0) }).id
              = rid := by
            rw [(updateRank_keeps _).1]
            show ref.id = rid
            exact getUser_id hget
          rw [getUser_setUser]
          by_cases hv : rid = v
          · rw [if_pos (hid.trans hv), ← hv, hget]
            simp only [Option.map_some']
            exact congrArg some (hf ref)
          · rw [if_neg (fun h => hv (hid ▸ h))]

theorem propagate_mstcOf (A : ℚ) (b : Bool) (fuel : Nat) (db : DB)
    (visited : List Int) (cur : Option Int) (v : Int) :
    mstcOf (propagateTeamBusiness A b fuel db visited cur).1 v = mstcOf db v := by
  unfold mstcOf
  rw [propagate_getUser_map (fun u => u.balanceMstc) A b
    (fun u => (updateRank_keeps _).2.2.2.2.2.2.2.1)]

theorem propagate_actOf (A : ℚ) (b : Bool) (fuel : Nat) (db : DB)
    (visited : List Int) (cur : Option Int) (v : Int) :
    actOf (propagateTeamBusiness A b fuel db visited cur).1 v = actOf db v := by
  unfold actOf
  rw [propagate_getUser_map (fun u => u.selfActivated) A b
    (fun u => (updateRank_keeps _).2.2.1)]

theorem propagate_refOf (A : ℚ) (b : Bool) (fuel : Nat) (db : DB)
    (visited : List Int) (cur : Option Int) (v : Int) :
    refOf (propagateTeamBusiness A b fuel db visited cur).1 v = refOf db v := by
  unfold refOf
  rw [propagate_getUser_map (fun u => u.referrerId) A b
    (fun u => (updateRank_keeps _).2.2.2.2.2.2.2.2)]

theorem propagate_adcOf_false (A : ℚ) (fuel : Nat) (db : DB)
    (visited : List Int) (cur : Option Int) (v : Int) :
    adcOf (propagateTeamBusiness A false fuel db visited cur).1 v = adcOf db v := by
  unfold adcOf
  rw [propagate_getUser_map (fun u => u.activeOriginCount) A false
    (fun u => by
      show (updateRank _).activeOriginCount = u.activeOriginCount
      rw [(updateRank_keeps _).2.2.2.2.1]
      simp)]

theorem propagate_dbCredit (A : ℚ) (b : Bool) :
    ∀ (fuel : Nat) (db : DB) (visited : List Int) (cur : Option Int),
      dbCredit (propagateTeamBusiness A b fuel db visited cur).1 = dbCredit db := by
  intro fuel
  induction fuel with
  | zero => intro db visited cur; rfl
  | succ n ih =>
    intro db visited cur
    match cur with
    | none => rfl
    | some rid =>
      simp only [propagateTeamBusiness]
      by_cases hstop : rid = 0 ∨ rid ∈ visited
      · rw [if_pos hstop]
      · rw [if_neg hstop]
        cases hget : getUser db rid with
        | none => rfl
        | some ref =>
          dsimp only
          rw [ih]
          have hid : (updateRank { ref with
              totalTeamBusiness := ref.totalTeamBusiness + A,
              activeOriginCount := ref.activeOriginCount + (if b then 1 else 0) }).id
              = rid := by
            rw [(updateRank_keeps _).1]
            show ref.id = rid
            exact getUser_id hget
          rw [dbCredit_setUser_of_get _ (by rw [hid]; exact hget), creditOf_updateRank]
          rw [show creditOf { ref with
              totalTeamBusiness := ref.totalTeamBusiness + A,
              activeOriginCount := ref.activeOriginCount + (if b then 1 else 0) }
            = creditOf ref from rfl]
          ring

theorem propagate_adcOf_true (A : ℚ) :
    ∀ (fuel : Nat) (db : DB) (visited : List Int) (cur : Option Int) (v : Int),
      adcOf db v ≤ adcOf (propagateTeamBusiness A true fuel db visited cur).1 v ∧
      adcOf (propagateTeamBusiness A true fuel db visited cur).1 v
        ≤ adcOf db v + (if v ∈ visited then 0 else 1) := by
  intro fuel
  induction fuel with
  | zero =>
    intro db visited cur v
    refine ⟨le_refl _, ?_⟩
    show adcOf db v ≤ adcOf db v + (if v ∈ visited then 0 else 1)
    split_ifs <;> omega
  | succ n ih =>
    intro db visited cur v
    match cur with
    | none =>
      refine ⟨le_refl _, ?_⟩
      show adcOf db v ≤ adcOf db v + (if v ∈ visited then 0 else 1)
      split_ifs <;> omega
    | some rid =>
      simp only [propagateTeamBusiness]
      by_cases hstop : rid = 0 ∨ rid ∈ visited
      · rw [if_pos hstop]
        dsimp only
        refine ⟨le_refl _, ?_⟩
        split_ifs <;> omega
      · rw [if_neg hstop]
        cases hget : getUser db rid with
        | none =>
          dsimp only
          refine ⟨le_refl _, ?_⟩
          split_ifs <;> omega
        | some ref =>
          dsimp only
          have hrid0 : ¬ rid = 0 := fun h => hstop (Or.inl h)
          have hridvis : rid ∉ visited := fun h => hstop (Or.inr h)
          set ref2 := updateRank { ref with
            totalTeamBusiness := ref.totalTeamBusiness + A,
            activeOriginCount := ref.activeOriginCount + (if true then 1 else 0) } with href2
          have hid : ref2.id = rid := by
            rw [href2, (updateRank_keeps _).1]
            show ref.id = rid
            exact getUser_id hget
          have hadc2 : ref2.activeOriginCount = ref.activeOriginCount + 1 := by
            rw [href2, (updateRank_keeps _).2.2.2.2.1]
            simp
          have hsets : ∀ x, adcOf (setUser db ref2) x
              = if rid = x then ref.activeOriginCount + 1 else adcOf db x := by
            intro x
            unfold adcOf
            rw [getUser_setUser, hid]
            by_cases hx : rid = x
            · rw [if_pos hx, if_pos hx]
              simp [hadc2]
            · rw [if_neg hx, if_neg hx]
          have hdbrid : adcOf db rid = ref.activeOriginCount := by
            unfold adcOf
            rw [hget]
            rfl
          obtain ⟨ih1, ih2⟩ := ih (setUser db ref2) (rid :: visited) ref2.referrerId v
          by_cases hv : rid = v
          · subst hv
            constructor
            · calc adcOf db rid = ref.activeOriginCount := hdbrid
                _ ≤ ref.activeOriginCount + 1 := by omega
                _ = adcOf (setUser db ref2) rid := by rw [hsets, if_pos rfl]
                _ ≤ _ := ih1
            · have hmem : rid ∈ rid :: visited := List.mem_cons_self rid visited
              rw [if_neg hridvis]
              calc adcOf (propagateTeamBusiness A true n (setUser db ref2)
                    (rid :: visited) ref2.referrerId).1 rid
                  ≤ adcOf (setUser db ref2) rid + (if rid ∈ rid :: visited then 0 else 1) := ih2
                _ = adcOf (setUser db ref2) rid := by rw [if_pos hmem]; omega
                _ = ref.activeOriginCount + 1 := by rw [hsets, if_pos rfl]
                _ = adcOf db rid + 1 := by rw [hdbrid]
          · have hsv : adcOf (setUser db ref2) v = adcOf db v := by
              rw [hsets, if_neg hv]
            constructor
            · rw [← hsv]; exact ih1
            · refine le_trans ih2 ?_
              rw [hsv]
              by_cases hvis : v ∈ visited
              · have : v ∈ rid :: visited := List.mem_cons_of_mem _ hvis
                rw [if_pos this, if_pos hvis]
              · rw [if_neg hvis]
                by_cases hvis2 : v ∈ rid :: visited
                · rw [if_pos hvis2]; omega
                · rw [if_neg hvis2]

theorem propagate_trace (A : ℚ) (b : Bool) :
    ∀ (fuel : Nat) (db : DB) (visited : List Int) (cur : Option Int),
      (propagateTeamBusiness A b fuel db visited cur).2.Nodup ∧
      ∀ i ∈ (propagateTeamBusiness A b fuel db visited cur).2, i ∉ visited := by
  intro fuel
  induction fuel with
  | zero => intro db visited cur; simp [propagateTeamBusiness]
  | succ n ih =>
    intro db visited cur
    match cur with
    | none => simp [propagateTeamBusiness]
    | some rid =>
      simp only [propagateTeamBusiness]
      by_cases hstop : rid = 0 ∨ rid ∈ visited
      · rw [if_pos hstop]; simp
      · rw [if_neg hstop]
        cases hget : getUser db rid with
        | none => simp
        | some ref =>
          dsimp only
          have hridvis : rid ∉ visited := fun h => hstop (Or.inr h)
          obtain ⟨ihn, ihm⟩ := ih (setUser db (updateRank _)) (rid :: visited) _
          refine ⟨List.nodup_cons.2 ⟨fun hmem => ?_, ihn⟩, ?_⟩
          · exact (ihm rid hmem) (List.mem_cons_self rid _)
          · intro i hi
            rcases List.mem_cons.1 hi with h | h
            · exact h ▸ hridvis
            · exact fun hv => (ihm i h) (List.mem_cons_of_mem _ hv)

/-! ### Company-pool and club-income lemmas -/

theorem addPool_getUser_ne (db : DB) (a : ℚ) {v : Int} (hv : v ≠ COMPANY_USER_ID) :
    getUser (addToCompanyPool db a) v = getUser db v := by
  unfold addToCompanyPool getCompanyUser
  by_cases ha : a ≤ 0
  · rw [if_pos ha]
  · rw [if_neg ha]
    cases h : getUser db COMPANY_USER_ID with
    | some c =>
      have hc : c.id = COMPANY_USER_ID := getUser_id h
      dsimp only
      rw [getUser_setUser]
      dsimp only
      rw [hc, if_neg (fun hh => hv hh.symm)]
    | none =>
      dsimp only
      rw [getUser_setUser]
      dsimp only
      rw [if_neg (fun hh : COMPANY_USER_ID = v => hv hh.symm), getUser_setUser]
      dsimp only
      rw [if_neg (fun hh : COMPANY_USER_ID = v => hv hh.symm)]

theorem addPool_obs {α : Type} (f : UserRec → α) (d : α)
    (hf : ∀ (c : UserRec) (x : ℚ), f { c with balanceMusd := x } = f c)
    (hnew : f { id := COMPANY_USER_ID, telegramId := COMPANY_USER_ID, role := "company", selfActivated := false } = d)
    (db : DB) (a : ℚ) (v : Int) :
    ((getUser (addToCompanyPool db a) v).map f).getD d
      = ((getUser db v).map f).getD d := by
  unfold addToCompanyPool getCompanyUser
  by_cases ha : a ≤ 0
  · rw [if_pos ha]
  · rw [if_neg ha]
    cases h : getUser db COMPANY_USER_ID with
    | some c =>
      have hc : c.id = COMPANY_USER_ID := getUser_id h
      dsimp only
      rw [getUser_setUser]
      dsimp only
      by_cases hcv : c.id = v
      · rw [if_pos hcv]
        have hdv : getUser db v = some c := by
          rw [← hcv, hc]
          exact h
        rw [hdv]
        simp only [Option.map_some', Option.getD_some]
        exact hf c _
      · rw [if_neg hcv]
    | none =>
      dsimp only
      rw [getUser_setUser]
      dsimp only
      by_cases hcv : COMPANY_USER_ID = v
      · rw [if_pos hcv, ← hcv, h]
        simp only [Option.map_some', Option.getD_some, Option.map_none', Option.getD_none]
        exact (hf { id := COMPANY_USER_ID, telegramId := COMPANY_USER_ID, role := "company", selfActivated := false } (0 + a)).trans hnew
      · rw [if_neg hcv, getUser_setUser]
        dsimp only
        rw [if_neg hcv]

theorem addPool_dbCredit (db : DB) (a : ℚ) :
    dbCredit (addToCompanyPool db a) = dbCredit db + (if a ≤ 0 then 0 else a) := by
  unfold addToCompanyPool getCompanyUser
  by_cases ha : a ≤ 0
  · rw [if_pos ha, if_pos ha]
    ring
  · rw [if_neg ha, if_neg ha]
    cases h : getUser db COMPANY_USER_ID with
    | some c =>
      dsimp only
      have hget : getUser db ({ c with balanceMusd := c.balanceMusd + a }).id = some c := by
        dsimp only
        rw [getUser_id h]
        exact h
      rw [dbCredit_setUser_of_get _ hget]
      show dbCredit db + (c.balanceMusd + a + c.balanceMstc + c.clubIncome)
        - (c.balanceMusd + c.balanceMstc + c.clubIncome) = dbCredit db + a
      ring
    | none =>
      dsimp only
      rw [dbCredit_setUser_of_get _ (by rw [getUser_setUser]; dsimp only; rw [if_pos rfl]),
        dbCredit_setUser_of_none _ h]
      show dbCredit db + (0 + 0 + 0) + (0 + a + 0 + 0) - (0 + 0 + 0) = dbCredit db + a
      ring

theorem addPool_musdOf_company (db : DB) {a : ℚ} (ha : 0 < a) :
    musdOf (addToCompanyPool db a) COMPANY_USER_ID
      = musdOf db COMPANY_USER_ID + a := by
  unfold addToCompanyPool getCompanyUser
  rw [if_neg (not_le.2 ha)]
  cases h : getUser db COMPANY_USER_ID with
  | some c =>
    dsimp only
    unfold musdOf
    rw [getUser_setUser]
    dsimp only
    rw [getUser_id h, if_pos rfl, h]
    rfl
  | none =>
    dsimp only
    unfold musdOf
    rw [getUser_setUser]
    dsimp only
    rw [if_pos rfl, h]
    show (0 : ℚ) + a = 0 + a
    rfl

theorem creditClub_getUser_ne (db : DB) (i : Int) (a : ℚ) {v : Int} (hv : v ≠ i) :
    getUser (creditClubIncome db i a) v = getUser db v := by
  unfold creditClubIncome
  cases h : getUser db i with
  | none => rfl
  | some u =>
    dsimp only
    rw [getUser_setUser]
    dsimp only
    rw [getUser_id h, if_neg (fun hh => hv hh.symm)]

theorem creditClub_obs {α : Type} (f : UserRec → α) (d : α)
    (hf : ∀ (u : UserRec) (x : ℚ), f { u with clubIncome := x } = f u)
    (db : DB) (i : Int) (a : ℚ) (v : Int) :
    ((getUser (creditClubIncome db i a) v).map f).getD d
      = ((getUser db v).map f).getD d := by
  unfold creditClubIncome
  cases h : getUser db i with
  | none => rfl
  | some u =>
    dsimp only
    rw [getUser_setUser]
    dsimp only
    by_cases hv : u.id = v
    · rw [if_pos hv]
      have huv : getUser db v = some u := by
        rw [← hv, getUser_id h]
        exact h
      rw [huv]
      simp only [Option.map_some', Option.getD_some]
      exact hf u _
    · rw [if_neg hv]

theorem creditClub_dbCredit (db : DB) (i : Int) (a : ℚ) :
    dbCredit (creditClubIncome db i a)
      = dbCredit db + (if (getUser db i).isSome then a else 0) := by
  unfold creditClubIncome
  cases h : getUser db i with
  | none => simp [h]
  | some u =>
    dsimp only
    have hget : getUser db ({ u with clubIncome := u.clubIncome + a }).id = some u := by
      dsimp only
      rw [getUser_id h]
      exact h
    have hsome : (if (some u).isSome = true then a else (0 : ℚ)) = a := by simp
    rw [dbCredit_setUser_of_get _ hget, hsome]
    show dbCredit db + (u.balanceMusd + u.balanceMstc + (u.clubIncome + a))
      - (u.balanceMusd + u.balanceMstc + u.clubIncome) = dbCredit db + a
    ring

theorem creditClub_clubOf_self (db : DB) {i : Int} {u : UserRec} (a : ℚ)
    (h : getUser db i = some u) :
    clubOf (creditClubIncome db i a) i = clubOf db i + a := by
  unfold creditClubIncome
  rw [h]
  dsimp only
  unfold clubOf
  rw [getUser_setUser]
  dsimp only
  rw [getUser_id h, if_pos rfl, h]
  rfl

theorem creditClub_isSome (db : DB) (i : Int) (a : ℚ) {v : Int}
    (h : (getUser db v).isSome) : (getUser (creditClubIncome db i a) v).isSome := by
  unfold creditClubIncome
  cases hg : getUser db i with
  | none => exact h
  | some u => exact getUser_isSome_setUser _ h

theorem addPool_isSome (db : DB) (a : ℚ) {v : Int}
    (h : (getUser db v).isSome) : (getUser (addToCompanyPool db a) v).isSome := by
  unfold addToCompanyPool getCompanyUser
  by_cases ha : a ≤ 0
  · rw [if_pos ha]; exact h
  · rw [if_neg ha]
    cases hg : getUser db COMPANY_USER_ID with
    | some c => exact getUser_isSome_setUser _ h
    | none => exact getUser_isSome_setUser _ (getUser_isSome_setUser _ h)

theorem addPool_mstcOf (db : DB) (a : ℚ) (v : Int) :
    mstcOf (addToCompanyPool db a) v = mstcOf db v :=
  addPool_obs (fun u => u.balanceMstc) 0 (fun _ _ => rfl) rfl db a v

theorem addPool_actOf (db : DB) (a : ℚ) (v : Int) :
    actOf (addToCompanyPool db a) v = actOf db v :=
  addPool_obs (fun u => u.selfActivated) false (fun _ _ => rfl) rfl db a v

theorem addPool_adcOf (db : DB) (a : ℚ) (v : Int) :
    adcOf (addToCompanyPool db a) v = adcOf db v :=
  addPool_obs (fun u => u.activeOriginCount) 0 (fun _ _ => rfl) rfl db a v

theorem addPool_tvOf (db : DB) (a : ℚ) (v : Int) :
    tvOf (addToCompanyPool db a) v = tvOf db v :=
  addPool_obs (fun u => u.totalTeamBusiness) 0 (fun _ _ => rfl) rfl db a v

theorem addPool_clubOf (db : DB) (a : ℚ) (v : Int) :
    clubOf (addToCompanyPool db a) v = clubOf db v :=
  addPool_obs (fun u => u.clubIncome) 0 (fun _ _ => rfl) rfl db a v

theorem addPool_refOf (db : DB) (a : ℚ) (v : Int) :
    refOf (addToCompanyPool db a) v = refOf db v :=
  addPool_obs (fun u => u.referrerId) none (fun _ _ => rfl) rfl db a v

theorem creditClub_mstcOf (db : DB) (i : Int) (a : ℚ) (v : Int) :
    mstcOf (creditClubIncome db i a) v = mstcOf db v :=
  creditClub_obs (fun u => u.balanceMstc) 0 (fun _ _ => rfl) db i a v

theorem creditClub_musdOf (db : DB) (i : Int) (a : ℚ) (v : Int) :
    musdOf (creditClubIncome db i a) v = musdOf db v :=
  creditClub_obs (fun u => u.balanceMusd) 0 (fun _ _ => rfl) db i a v

theorem creditClub_actOf (db : DB) (i : Int) (a : ℚ) (v : Int) :
    actOf (creditClubIncome db i a) v = actOf db v :=
  creditClub_obs (fun u => u.selfActivated) false (fun _ _ => rfl) db i a v

theorem creditClub_adcOf (db : DB) (i : Int) (a : ℚ) (v : Int) :
    adcOf (creditClubIncome db i a) v = adcOf db v :=
  creditClub_obs (fun u => u.activeOriginCount) 0 (fun _ _ => rfl) db i a v

theorem creditClub_tvOf (db : DB) (i : Int) (a : ℚ) (v : Int) :
    tvOf (creditClubIncome db i a) v = tvOf db v :=
  creditClub_obs (fun u => u.totalTeamBusiness) 0 (fun _ _ => rfl) db i a v

theorem creditClub_refOf (db : DB) (i : Int) (a : ℚ) (v : Int) :
    refOf (creditClubIncome db i a) v = refOf db v :=
  creditClub_obs (fun u => u.referrerId) none (fun _ _ => rfl) db i a v

/-! ### Club-bonus distribution lemmas -/

theorem foldClub_obs {α : Type} (f : UserRec → α) (d : α)
    (hf : ∀ (u : UserRec) (x : ℚ), f { u with clubIncome := x } = f u) (p : ℚ) :
    ∀ (l : List UserRec) (db : DB) (v : Int),
      ((getUser (l.foldl (fun acc u => creditClubIncome acc u.id p) db) v).map f).getD d
        = ((getUser db v).map f).getD d := by
  intro l
  induction l with
  | nil => intro db v; rfl
  | cons u rest ih =>
    intro db v
    rw [List.foldl_cons, ih, creditClub_obs f d hf]

theorem foldClub_isSome (p : ℚ) :
    ∀ (l : List UserRec) (db : DB) {v : Int}, (getUser db v).isSome →
      (getUser (l.foldl (fun acc u => creditClubIncome acc u.id p) db) v).isSome := by
  intro l
  induction l with
  | nil => intro db v h; exact h
  | cons u rest ih =>
    intro db v h
    rw [List.foldl_cons]
    exact ih _ (creditClub_isSome _ _ _ h)

theorem foldClub_dbCredit (p : ℚ) :
    ∀ (l : List UserRec) (db : DB), (∀ u ∈ l, (getUser db u.id).isSome) →
      dbCredit (l.foldl (fun acc u => creditClubIncome acc u.id p) db)
        = dbCredit db + l.length * p := by
  intro l
  induction l with
  | nil => intro db _; simp
  | cons u rest ih =>
    intro db h
    rw [List.foldl_cons, ih _ (fun u' hu' =>
      creditClub_isSome _ _ _ (h u' (List.mem_cons_of_mem _ hu'))),
      creditClub_dbCredit, if_pos (h u (List.mem_cons_self u rest))]
    simp only [List.length_cons]
    push_cast
    ring

theorem mem_getUser_isSome {db : DB} {u : UserRec} (h : u ∈ db) :
    (getUser db u.id).isSome := by
  induction db with
  | nil => simp at h
  | cons w rest ih =>
    rw [getUser]
    by_cases hw : w.id = u.id
    · rw [if_pos hw]; rfl
    · rw [if_neg hw]
      rcases List.mem_cons.1 h with h' | h'
      · exact absurd (congrArg UserRec.id h'.symm) hw
      · exact ih h'

theorem club_obs {α : Type} (f : UserRec → α) (d : α)
    (hfc : ∀ (u : UserRec) (x : ℚ), f { u with clubIncome := x } = f u)
    (hfm : ∀ (c : UserRec) (x : ℚ), f { c with balanceMusd := x } = f c)
    (hnew : f { id := COMPANY_USER_ID, telegramId := COMPANY_USER_ID, role := "company", selfActivated := false } = d)
    (db : DB) (A : ℚ) (v : Int) :
    ((getUser (distributeClubBonus db A).1 v).map f).getD d
      = ((getUser db v).map f).getD d := by
  unfold distributeClubBonus
  dsimp only
  split_ifs with h1 h2 h3 h4
  · rfl
  · exact addPool_obs f d hfm hnew db _ v
  · exact addPool_obs f d hfm hnew db _ v
  · rw [addPool_obs f d hfm hnew, foldClub_obs f d hfc]
  · rw [foldClub_obs f d hfc]

theorem club_isSome (db : DB) (A : ℚ) {v : Int} (h : (getUser db v).isSome) :
    (getUser (distributeClubBonus db A).1 v).isSome := by
  unfold distributeClubBonus
  dsimp only
  split_ifs with h1 h2 h3 h4
  · exact h
  · exact addPool_isSome _ _ h
  · exact addPool_isSome _ _ h
  · exact addPool_isSome _ _ (foldClub_isSome _ _ _ h)
  · exact foldClub_isSome _ _ _ h

theorem club_mstcOf (db : DB) (A : ℚ) (v : Int) :
    mstcOf (distributeClubBonus db A).1 v = mstcOf db v :=
  club_obs (fun u => u.balanceMstc) 0 (fun _ _ => rfl) (fun _ _ => rfl) rfl db A v

theorem club_actOf (db : DB) (A : ℚ) (v : Int) :
    actOf (distributeClubBonus db A).1 v = actOf db v :=
  club_obs (fun u => u.selfActivated) false (fun _ _ => rfl) (fun _ _ => rfl) rfl db A v

theorem club_adcOf (db : DB) (A : ℚ) (v : Int) :
    adcOf (distributeClubBonus db A).1 v = adcOf db v :=
  club_obs (fun u => u.activeOriginCount) 0 (fun _ _ => rfl) (fun _ _ => rfl) rfl db A v

theorem club_tvOf (db : DB) (A : ℚ) (v : Int) :
    tvOf (distributeClubBonus db A).1 v = tvOf db v :=
  club_obs (fun u => u.totalTeamBusiness) 0 (fun _ _ => rfl) (fun _ _ => rfl) rfl db A v

theorem club_refOf (db : DB) (A : ℚ) (v : Int) :
    refOf (distributeClubBonus db A).1 v = refOf db v :=
  club_obs (fun u => u.referrerId) none (fun _ _ => rfl) (fun _ _ => rfl) rfl db A v

/-! ### Upline and referral-distribution lemmas -/

theorem uplinesAux_facts (db : DB) :
    ∀ (fuel lvl : Nat) (cur : Option Int) (lu : Nat × UserRec),
      lu ∈ getUplinesAux db fuel lvl cur →
        getUser db lu.2.id = some lu.2 ∧ lvl ≤ lu.1 ∧ lu.1 < lvl + fuel := by
  intro fuel
  induction fuel with
  | zero =>
    intro lvl cur lu h
    simp [getUplinesAux] at h
  | succ n ih =>
    intro lvl cur lu h
    match cur with
    | none => simp [getUplinesAux] at h
    | some rid =>
      rw [getUplinesAux] at h
      by_cases h0 : rid = 0
      · rw [if_pos h0] at h
        simp at h
      · rw [if_neg h0] at h
        cases hget : getUser db rid with
        | none =>
          rw [hget] at h
          simp at h
        | some up =>
          rw [hget] at h
          rcases List.mem_cons.1 h with h' | h'
          · subst h'
            refine ⟨?_, le_refl _, by omega⟩
            show getUser db up.id = some up
            rw [getUser_id hget]
            exact hget
          · obtain ⟨ha, hb, hc⟩ := ih (lvl + 1) up.referrerId lu h'
            exact ⟨ha, by omega, by omega⟩

theorem uplinesAux_length (db : DB) :
    ∀ (fuel lvl : Nat) (cur : Option Int),
      (getUplinesAux db fuel lvl cur).length ≤ fuel := by
  intro fuel
  induction fuel with
  | zero => intro lvl cur; simp [getUplinesAux]
  | succ n ih =>
    intro lvl cur
    match cur with
    | none => simp [getUplinesAux]
    | some rid =>
      rw [getUplinesAux]
      by_cases h0 : rid = 0
      · rw [if_pos h0]; simp
      · rw [if_neg h0]
        cases hget : getUser db rid with
        | none => simp
        | some up =>
          dsimp only [List.length_cons]
          have := ih (lvl + 1) up.referrerId
          omega

theorem getUplines_length (db : DB) (uid : Int) : (getUplines db uid).length ≤ 3 := by
  unfold getUplines
  cases h : getUser db uid with
  | none => simp
  | some u => exact uplinesAux_length db 3 1 u.referrerId

theorem getUplines_facts (db : DB) (uid : Int) {lu : Nat × UserRec}
    (h : lu ∈ getUplines db uid) :
    getUser db lu.2.id = some lu.2 ∧ 1 ≤ lu.1 ∧ lu.1 ≤ 3 := by
  unfold getUplines at h
  cases hg : getUser db uid with
  | none => rw [hg] at h; simp at h
  | some u =>
    rw [hg] at h
    obtain ⟨ha, hb, hc⟩ := uplinesAux_facts db 3 1 u.referrerId lu h
    exact ⟨ha, hb, by omega⟩

theorem referralStep_obs {α : Type} (f : UserRec → α) (d : α)
    (hfc : ∀ (u : UserRec) (x : ℚ), f { u with clubIncome := x } = f u)
    (hfm : ∀ (c : UserRec) (x : ℚ), f { c with balanceMusd := x } = f c)
    (hnew : f { id := COMPANY_USER_ID, telegramId := COMPANY_USER_ID, role := "company", selfActivated := false } = d)
    (A : ℚ) (acc : DB × List DistLine) (lu : Nat × UserRec) (v : Int) :
    ((getUser (referralStep A acc lu).1 v).map f).getD d
      = ((getUser acc.1 v).map f).getD d := by
  unfold referralStep
  dsimp only
  split_ifs with h1 h2
  · rfl
  · exact creditClub_obs f d hfc acc.1 _ _ v
  · exact addPool_obs f d hfm hnew acc.1 _ v

theorem referralStep_isSome (A : ℚ) (acc : DB × List DistLine) (lu : Nat × UserRec)
    {v : Int} (h : (getUser acc.1 v).isSome) :
    (getUser (referralStep A acc lu).1 v).isSome := by
  unfold referralStep
  dsimp only
  split_ifs with h1 h2
  · exact h
  · exact creditClub_isSome _ _ _ h
  · exact addPool_isSome _ _ h

theorem referralFold_obs {α : Type} (f : UserRec → α) (d : α)
    (hfc : ∀ (u : UserRec) (x : ℚ), f { u with clubIncome := x } = f u)
    (hfm : ∀ (c : UserRec) (x : ℚ), f { c with balanceMusd := x } = f c)
    (hnew : f { id := COMPANY_USER_ID, telegramId := COMPANY_USER_ID, role := "company", selfActivated := false } = d)
    (A : ℚ) :
    ∀ (ups : List (Nat × UserRec)) (acc : DB × List DistLine) (v : Int),
      ((getUser (ups.foldl (referralStep A) acc).1 v).map f).getD d
        = ((getUser acc.1 v).map f).getD d := by
  intro ups
  induction ups with
  | nil => intro acc v; rfl
  | cons lu rest ih =>
    intro acc v
    rw [List.foldl_cons, ih, referralStep_obs f d hfc hfm hnew]

theorem referralFold_isSome (A : ℚ) :
    ∀ (ups : List (Nat × UserRec)) (acc : DB × List DistLine) {v : Int},
      (getUser acc.1 v).isSome →
      (getUser (ups.foldl (referralStep A) acc).1 v).isSome := by
  intro ups
  induction ups with
  | nil => intro acc v h; exact h
  | cons lu rest ih =>
    intro acc v h
    rw [List.foldl_cons]
    exact ih _ (referralStep_isSome _ _ _ h)

theorem referralStep_eq_skip (A : ℚ) (acc : DB × List DistLine) (lu : Nat × UserRec)
    (hp : levelPct lu.1 lu.2 ≤ 0) : referralStep A acc lu = acc := by
  unfold referralStep
  dsimp only
  rw [if_pos hp]

theorem referralStep_eq_credit (A : ℚ) (acc : DB × List DistLine) (lu : Nat × UserRec)
    (hp : ¬ levelPct lu.1 lu.2 ≤ 0) (hq : levelQualifies lu.1 lu.2 = true) :
    referralStep A acc lu
      = (creditClubIncome acc.1 lu.2.id (round2 (A * levelPct lu.1 lu.2)),
         acc.2 ++ [⟨lu.1, some lu.2.id, round2 (A * levelPct lu.1 lu.2)⟩]) := by
  unfold referralStep
  dsimp only
  rw [if_neg hp, if_pos hq]

theorem referralStep_eq_pool (A : ℚ) (acc : DB × List DistLine) (lu : Nat × UserRec)
    (hp : ¬ levelPct lu.1 lu.2 ≤ 0) (hq : ¬ levelQualifies lu.1 lu.2 = true) :
    referralStep A acc lu
      = (addToCompanyPool acc.1 (round2 (A * levelPct lu.1 lu.2)),
         acc.2 ++ [⟨0, none, round2 (A * levelPct lu.1 lu.2)⟩]) := by
  unfold referralStep
  dsimp only
  rw [if_neg hp, if_neg hq]

theorem referralFold_lines (A : ℚ) :
    ∀ (ups : List (Nat × UserRec)) (db : DB) (lines : List DistLine),
      (ups.foldl (referralStep A) (db, lines)).2 = lines ++ expectedLines A ups := by
  intro ups
  induction ups with
  | nil => intro db lines; simp [expectedLines]
  | cons lu rest ih =>
    intro db lines
    rw [List.foldl_cons]
    by_cases hp : levelPct lu.1 lu.2 ≤ 0
    · rw [referralStep_eq_skip A (db, lines) lu hp, ih]
      unfold expectedLines
      simp only [List.filterMap_cons, if_neg (not_lt.2 hp)]
    · by_cases hq : levelQualifies lu.1 lu.2 = true
      · rw [referralStep_eq_credit A (db, lines) lu hp hq, ih]
        unfold expectedLines
        simp only [List.filterMap_cons, if_pos (lt_of_not_le hp), if_pos hq]
        simp
      · rw [referralStep_eq_pool A (db, lines) lu hp hq, ih]
        unfold expectedLines
        simp only [List.filterMap_cons, if_pos (lt_of_not_le hp), if_neg hq]
        simp

theorem referralFold_dbCredit (A : ℚ) (hA : 0 < A) :
    ∀ (ups : List (Nat × UserRec)) (db : DB) (lines : List DistLine),
      (∀ lu ∈ ups, (getUser db lu.2.id).isSome) →
      dbCredit (ups.foldl (referralStep A) (db, lines)).1
        = dbCredit db + ((expectedLines A ups).map (fun l => l.amount)).sum := by
  intro ups
  induction ups with
  | nil =>
    intro db lines _
    simp [expectedLines]
  | cons lu rest ih =>
    intro db lines h
    rw [List.foldl_cons]
    have hbonus : 0 ≤ round2 (A * levelPct lu.1 lu.2) ∨ levelPct lu.1 lu.2 ≤ 0 := by
      by_cases hp : levelPct lu.1 lu.2 ≤ 0
      · exact Or.inr hp
      · exact Or.inl (round2_nonneg (le_of_lt (mul_pos hA (lt_of_not_le hp))))
    by_cases hp : levelPct lu.1 lu.2 ≤ 0
    · rw [referralStep_eq_skip A (db, lines) lu hp,
        ih db lines (fun lu' hlu' => h lu' (List.mem_cons_of_mem _ hlu'))]
      unfold expectedLines
      simp only [List.filterMap_cons, if_neg (not_lt.2 hp)]
    · have hb : 0 ≤ round2 (A * levelPct lu.1 lu.2) :=
        round2_nonneg (le_of_lt (mul_pos hA (lt_of_not_le hp)))
      by_cases hq : levelQualifies lu.1 lu.2 = true
      · rw [referralStep_eq_credit A (db, lines) lu hp hq]
        rw [ih _ _ (fun lu' hlu' =>
          creditClub_isSome _ _ _ (h lu' (List.mem_cons_of_mem _ hlu')))]
        rw [creditClub_dbCredit, if_pos (h lu (List.mem_cons_self lu rest))]
        unfold expectedLines
        simp only [List.filterMap_cons, if_pos (lt_of_not_le hp), if_pos hq,
          List.map_cons, List.sum_cons]
        ring
      · rw [referralStep_eq_pool A (db, lines) lu hp hq]
        rw [ih _ _ (fun lu' hlu' =>
          addPool_isSome _ _ (h lu' (List.mem_cons_of_mem _ hlu')))]
        rw [addPool_dbCredit]
        have hifb : (if round2 (A * levelPct lu.1 lu.2) ≤ 0 then 0 else
            round2 (A * levelPct lu.1 lu.2)) = round2 (A * levelPct lu.1 lu.2) := by
          split_ifs with hle
          · exact (le_antisymm hle hb).symm
          · rfl
        rw [hifb]
        unfold expectedLines
        simp only [List.filterMap_cons, if_pos (lt_of_not_le hp), if_neg hq,
          List.map_cons, List.sum_cons]
        ring

/-! ### Resolution and activation lemmas -/

theorem getOrCreate_isSome_self (db : DB) (uid : Int) (r : Option Int) :
    (getUser (getOrCreateUser db uid r) uid).isSome := by
  unfold getOrCreateUser
  cases h : getUser db uid with
  | none =>
    dsimp only
    rw [getUser_setUser]
    rw [if_pos (show (freshUser uid r).id = uid from rfl)]
    rfl
  | some u =>
    dsimp only
    split_ifs with hx
    · rw [getUser_setUser]
      by_cases hv : u.id = uid
      · rw [if_pos hv]; rfl
      · rw [if_neg hv, h]; rfl
    · rw [h]; rfl

theorem forceLink_isSome (db : DB) (uid : Int) (r : Option Int) {v : Int}
    (h : (getUser db v).isSome) :
    (getUser (forceLinkReferrer db uid r) v).isSome := by
  unfold forceLinkReferrer
  cases hg : getUser db uid with
  | none => exact h
  | some u =>
    dsimp only
    cases r with
    | none => exact h
    | some rr =>
      dsimp only
      split_ifs with hx
      · exact getUser_isSome_setUser _ h
      · exact h

theorem resolve_isSome_self (db : DB) (uid : Int) (r : Option Int) :
    (getUser (resolvedDB db uid r) uid).isSome :=
  forceLink_isSome _ _ _ (getOrCreate_isSome_self db uid r)

theorem resolve_isSome (db : DB) (uid : Int) (r : Option Int) {v : Int}
    (h : (getUser db v).isSome) :
    (getUser (resolvedDB db uid r) v).isSome := by
  unfold resolvedDB
  apply forceLink_isSome
  unfold getOrCreateUser
  cases hg : getUser db uid with
  | none => exact getUser_isSome_setUser _ h
  | some u =>
    dsimp only
    split_ifs with hx
    · exact getUser_isSome_setUser _ h
    · exact h

theorem resolve_obs {α : Type} (f : UserRec → α) (d : α)
    (hfr : ∀ (u : UserRec) (r : Option Int), f { u with referrerId := r } = f u)
    (hnew : ∀ (i : Int) (r : Option Int), f (freshUser i r) = d)
    (db : DB) (uid : Int) (r : Option Int) (v : Int) :
    ((getUser (resolvedDB db uid r) v).map f).getD d
      = ((getUser db v).map f).getD d := by
  unfold resolvedDB
  have step2 : ∀ (db' : DB),
      ((getUser (forceLinkReferrer db' uid r) v).map f).getD d
        = ((getUser db' v).map f).getD d := by
    intro db'
    unfold forceLinkReferrer
    cases hg : getUser db' uid with
    | none => rfl
    | some u =>
      dsimp only
      cases r with
      | none => rfl
      | some rr =>
        dsimp only
        split_ifs with hx
        · rw [getUser_setUser]
          dsimp only
          by_cases hv : u.id = v
          · rw [if_pos hv]
            have : getUser db' v = some u := by rw [← hv, getUser_id hg]; exact hg
            rw [this]
            simp only [Option.map_some', Option.getD_some]
            exact hfr u _
          · rw [if_neg hv]
        · rfl
  rw [step2]
  unfold getOrCreateUser
  cases hg : getUser db uid with
  | none =>
    dsimp only
    rw [getUser_setUser]
    by_cases hv : (freshUser uid r).id = v
    · rw [if_pos hv]
      have huidv : uid = v := hv
      rw [← huidv, hg]
      simp only [Option.map_some', Option.getD_some, Option.map_none', Option.getD_none]
      exact hnew uid r
    · rw [if_neg hv]
  | some u =>
    dsimp only
    split_ifs with hx
    · rw [getUser_setUser]
      dsimp only
      by_cases hv : u.id = v
      · rw [if_pos hv]
        have : getUser db v = some u := by rw [← hv, getUser_id hg]; exact hg
        rw [this]
        simp only [Option.map_some', Option.getD_some]
        exact hfr u _
      · rw [if_neg hv]
    · rfl

theorem resolve_dbCredit (db : DB) (uid : Int) (r : Option Int) :
    dbCredit (resolvedDB db uid r) = dbCredit db := by
  unfold resolvedDB
  have step2 : ∀ (db' : DB), dbCredit (forceLinkReferrer db' uid r) = dbCredit db' := by
    intro db'
    unfold forceLinkReferrer
    cases hg : getUser db' uid with
    | none => rfl
    | some u =>
      dsimp only
      cases r with
      | none => rfl
      | some rr =>
        dsimp only
        split_ifs with hx
        · rw [dbCredit_setUser_of_get _ (show getUser db'
            ({ u with referrerId := some rr }).id = some u by
              dsimp only; rw [getUser_id hg]; exact hg)]
          show dbCredit db' + (u.balanceMusd + u.balanceMstc + u.clubIncome)
            - (u.balanceMusd + u.balanceMstc + u.clubIncome) = dbCredit db'
          ring
        · rfl
  rw [step2]
  unfold getOrCreateUser
  cases hg : getUser db uid with
  | none =>
    dsimp only
    rw [dbCredit_setUser_of_none _ (show getUser db (freshUser uid r).id = none from hg)]
    show dbCredit db + (0 + 0 + 0) = dbCredit db
    ring
  | some u =>
    dsimp only
    split_ifs with hx
    · rw [dbCredit_setUser_of_get _ (show getUser db
        ({ u with referrerId := r }).id = some u by
          dsimp only; rw [getUser_id hg]; exact hg)]
      show dbCredit db + (u.balanceMusd + u.balanceMstc + u.clubIncome)
        - (u.balanceMusd + u.balanceMstc + u.clubIncome) = dbCredit db
      ring
    · rfl

theorem getOrCreate_refOf_set (db : DB) (uid : Int) (r : Option Int) {v : Int} {s : Int}
    (h : refOf db v = some s) : refOf (getOrCreateUser db uid r) v = some s := by
  unfold getOrCreateUser
  cases hg : getUser db uid with
  | none =>
    dsimp only
    unfold refOf at h ⊢
    rw [getUser_setUser]
    by_cases hv : (freshUser uid r).id = v
    · exfalso
      have huidv : uid = v := hv
      rw [← huidv, hg] at h
      simp at h
    · rw [if_neg hv]
      exact h
  | some u =>
    dsimp only
    split_ifs with hx
    · unfold refOf at h ⊢
      rw [getUser_setUser]
      dsimp only
      by_cases hv : u.id = v
      · exfalso
        have : getUser db v = some u := by rw [← hv, getUser_id hg]; exact hg
        rw [this] at h
        simp only [Option.map_some', Option.getD_some] at h
        rw [hx.1] at h
        exact Option.noConfusion h
      · rw [if_neg hv]
        exact h
    · exact h

theorem forceLink_refOf_set (db : DB) (uid : Int) (r : Option Int) {v : Int} {s : Int}
    (h : refOf db v = some s) : refOf (forceLinkReferrer db uid r) v = some s := by
  unfold forceLinkReferrer
  cases hg : getUser db uid with
  | none => exact h
  | some u =>
    dsimp only
    cases r with
    | none => exact h
    | some rr =>
      dsimp only
      split_ifs with hx
      · unfold refOf at h ⊢
        rw [getUser_setUser]
        dsimp only
        by_cases hv : u.id = v
        · exfalso
          have : getUser db v = some u := by rw [← hv, getUser_id hg]; exact hg
          rw [this] at h
          simp only [Option.map_some', Option.getD_some] at h
          rw [hx.1] at h
          exact Option.noConfusion h
        · rw [if_neg hv]
          exact h
      · exact h

theorem resolve_refOf_set (db : DB) (uid : Int) (r : Option Int) {v : Int} {s : Int}
    (h : refOf db v = some s) : refOf (resolvedDB db uid r) v = some s :=
  forceLink_refOf_set _ _ _ (getOrCreate_refOf_set _ _ _ h)

theorem activate_obs {α : Type} (f : UserRec → α) (d : α)
    (hf1 : ∀ (u : UserRec) (x : ℚ), f { u with totalTeamBusiness := x } = f u)
    (hf2 : ∀ (u : UserRec), f { u with selfActivated := true, role := "origin" } = f u)
    (db : DB) (uid : Int) (A : ℚ) (v : Int) :
    ((getUser (activateAndSelfVolume db uid A).1 v).map f).getD d
      = ((getUser db v).map f).getD d := by
  unfold activateAndSelfVolume
  cases hg : getUser db uid with
  | none => rfl
  | some u =>
    dsimp only
    rw [getUser_setUser]
    set u1 := if (!u.selfActivated && decide ((20 : ℚ) ≤ A)) = true then
      { u with selfActivated := true, role := "origin" } else u with hu1
    have hid : u1.id = u.id := by
      rw [hu1]
      split_ifs <;> rfl
    have hval : f { u1 with totalTeamBusiness := u1.totalTeamBusiness + A } = f u := by
      rw [hf1, hu1]
      split_ifs
      · exact hf2 u
      · rfl
    by_cases hv : ({ u1 with totalTeamBusiness := u1.totalTeamBusiness + A }).id = v
    · rw [if_pos hv]
      have huv : u.id = v := by rw [← hv]; exact hid.symm
      have : getUser db v = some u := by rw [← huv, getUser_id hg]; exact hg
      rw [this]
      simp only [Option.map_some', Option.getD_some]
      exact hval
    · rw [if_neg hv]

theorem activate_dbCredit (db : DB) (uid : Int) (A : ℚ) :
    dbCredit (activateAndSelfVolume db uid A).1 = dbCredit db := by
  unfold activateAndSelfVolume
  cases hg : getUser db uid with
  | none => rfl
  | some u =>
    dsimp only
    set u1 := if (!u.selfActivated && decide ((20 : ℚ) ≤ A)) = true then
      { u with selfActivated := true, role := "origin" } else u with hu1
    have hid : u1.id = u.id := by
      rw [hu1]
      split_ifs <;> rfl
    have hcred : creditOf { u1 with totalTeamBusiness := u1.totalTeamBusiness + A }
        = creditOf u := by
      show u1.balanceMusd + u1.balanceMstc + u1.clubIncome = creditOf u
      rw [hu1]
      split_ifs <;> rfl
    rw [dbCredit_setUser_of_get _ (show getUser db
      ({ u1 with totalTeamBusiness := u1.totalTeamBusiness + A }).id = some u by
        show getUser db u1.id = some u
        rw [hid, getUser_id hg]
        exact hg), hcred]
    ring

theorem activate_isSome (db : DB) (uid : Int) (A : ℚ) {v : Int}
    (h : (getUser db v).isSome) :
    (getUser (activateAndSelfVolume db uid A).1 v).isSome := by
  unfold activateAndSelfVolume
  cases hg : getUser db uid with
  | none => exact h
  | some u =>
    dsimp only
    exact getUser_isSome_setUser _ h

theorem activate_became (db : DB) (uid : Int) (A : ℚ) :
    (activateAndSelfVolume db uid A).2
      = ((getUser db uid).isSome && (!actOf db uid && decide ((20 : ℚ) ≤ A))) := by
  unfold activateAndSelfVolume
  cases hg : getUser db uid with
  | none => rfl
  | some u =>
    dsimp only
    unfold actOf
    rw [hg]
    rfl

theorem activate_actOf_self (db : DB) (uid : Int) (A : ℚ)
    {u : UserRec} (hg : getUser db uid = some u) :
    actOf (activateAndSelfVolume db uid A).1 uid
      = (actOf db uid || decide ((20 : ℚ) ≤ A)) := by
  unfold activateAndSelfVolume
  rw [hg]
  dsimp only
  unfold actOf
  rw [getUser_setUser]
  set u1 := if (!u.selfActivated && decide ((20 : ℚ) ≤ A)) = true then
    { u with selfActivated := true, role := "origin" } else u with hu1
  have hid : u1.id = u.id := by
    rw [hu1]
    split_ifs <;> rfl
  have hcond : ({ u1 with totalTeamBusiness := u1.totalTeamBusiness + A }).id = uid := by
    show u1.id = uid
    rw [hid, getUser_id hg]
  rw [if_pos hcond, hg]
  show u1.selfActivated = (u.selfActivated || decide ((20 : ℚ) ≤ A))
  rw [hu1, apply_ite (fun r : UserRec => r.selfActivated)]
  cases hsa : u.selfActivated with
  | true => simp
  | false =>
    cases hA : decide ((20 : ℚ) ≤ A) with
    | true => simp
    | false => simp

theorem activate_actOf_ne (db : DB) (uid : Int) (A : ℚ) {v : Int} (hv : v ≠ uid) :
    actOf (activateAndSelfVolume db uid A).1 v = actOf db v := by
  unfold activateAndSelfVolume
  cases hg : getUser db uid with
  | none => rfl
  | some u =>
    dsimp only
    unfold actOf
    rw [getUser_setUser]
    set u1 := if (!u.selfActivated && decide ((20 : ℚ) ≤ A)) = true then
      { u with selfActivated := true, role := "origin" } else u with hu1
    have hid : u1.id = u.id := by
      rw [hu1]
      split_ifs <;> rfl
    have hcond : ¬ ({ u1 with totalTeamBusiness := u1.totalTeamBusiness + A }).id = v := by
      show ¬ u1.id = v
      rw [hid, getUser_id hg]
      exact fun hh => hv hh.symm
    rw [if_neg hcond]

/-! ### Stage-1 (resolve, activate, propagate, re-rank) lemmas -/

theorem stage1_obs {α : Type} (f : UserRec → α) (d : α)
    (hrank : ∀ u, f (updateRank u) = f u)
    (hgrow : ∀ (u : UserRec) (x : ℚ) (y : Int),
      f { u with totalTeamBusiness := x, activeOriginCount := y } = f u)
    (htv : ∀ (u : UserRec) (x : ℚ), f { u with totalTeamBusiness := x } = f u)
    (hact : ∀ u : UserRec, f { u with selfActivated := true, role := "origin" } = f u)
    (hfr : ∀ (u : UserRec) (r : Option Int), f { u with referrerId := r } = f u)
    (hnew : ∀ (i : Int) (r : Option Int), f (freshUser i r) = d)
    (db : DB) (uid : Int) (A : ℚ) (r : Option Int) (v : Int) :
    ((getUser (stage1 db uid A r) v).map f).getD d
      = ((getUser db v).map f).getD d := by
  unfold stage1
  dsimp only
  have hprop := propagate_getUser_map f A (activateAndSelfVolume (resolvedDB db uid r) uid A).2
    (fun u => (hrank _).trans (hgrow u _ _))
  set db1 := resolvedDB db uid r with hdb1
  set s := activateAndSelfVolume db1 uid A with hs
  set p := propagateTeamBusiness A s.2 s.1.length s.1 []
    ((getUser s.1 uid).bind (fun u => u.referrerId)) with hp
  have hchain : ((getUser p.1 v).map f).getD d = ((getUser db v).map f).getD d := by
    rw [hp, hprop]
    have h2 : ((getUser s.1 v).map f).getD d = ((getUser db1 v).map f).getD d := by
      rw [hs]
      exact activate_obs f d htv hact db1 uid A v
    rw [h2, hdb1]
    exact resolve_obs f d hfr hnew db uid r v
  cases hm : getUser p.1 uid with
  | none => exact hchain
  | some u3 =>
    rw [getUser_setUser]
    have hid3 : (updateRank u3).id = uid := by
      rw [(updateRank_keeps _).1]
      exact getUser_id hm
    by_cases hv : (updateRank u3).id = v
    · rw [if_pos hv]
      have : getUser p.1 v = some u3 := by
        rw [← hv, hid3]
        exact hm
      rw [← hchain, this]
      simp only [Option.map_some', Option.getD_some]
      exact hrank u3
    · rw [if_neg hv, ← hchain]

theorem stage1_mstcOf (db : DB) (uid : Int) (A : ℚ) (r : Option Int) (v : Int) :
    mstcOf (stage1 db uid A r) v = mstcOf db v :=
  stage1_obs (fun u => u.balanceMstc) 0
    (fun u => (updateRank_keeps u).2.2.2.2.2.2.2.1)
    (fun _ _ _ => rfl) (fun _ _ => rfl) (fun _ => rfl) (fun _ _ => rfl) (fun _ _ => rfl)
    db uid A r v

theorem stage1_actOf_ne (db : DB) (uid : Int) (A : ℚ) (r : Option Int) (v : Int) :
    actOf (stage1 db uid A r) v
      = if v = uid then actOf (stage1 db uid A r) v else actOf db v := by
  by_cases hv : v = uid
  · rw [if_pos hv]
  · rw [if_neg hv]
    unfold stage1
    dsimp only
    set db1 := resolvedDB db uid r with hdb1
    set s := activateAndSelfVolume db1 uid A with hs
    set p := propagateTeamBusiness A s.2 s.1.length s.1 []
      ((getUser s.1 uid).bind (fun u => u.referrerId)) with hp
    have hchain : actOf p.1 v = actOf db v := by
      rw [hp]
      unfold actOf
      rw [propagate_getUser_map (fun u => u.selfActivated) A s.2
        (fun u => (updateRank_keeps _).2.2.1)]
      have h2 : ((getUser s.1 v).map (fun u => u.selfActivated)).getD false
          = actOf db1 v := by
        rw [hs]
        exact activate_actOf_ne db1 uid A hv
      rw [h2, hdb1]
      exact resolve_obs (fun u => u.selfActivated) false (fun _ _ => rfl) (fun _ _ => rfl)
        db uid r v
    cases hm : getUser p.1 uid with
    | none => exact hchain
    | some u3 =>
      unfold actOf
      rw [getUser_setUser]
      have hid3 : (updateRank u3).id = uid := by
        rw [(updateRank_keeps _).1]
        exact getUser_id hm
      rw [if_neg (fun hh : (updateRank u3).id = v => hv (hh ▸ hid3 ▸ rfl))]
      exact hchain

theorem propagate_isSome (A : ℚ) (b : Bool) (fuel : Nat) (db : DB)
    (visited : List Int) (cur : Option Int) (v : Int) :
    (getUser (propagateTeamBusiness A b fuel db visited cur).1 v).isSome
      = (getUser db v).isSome := by
  have h := propagate_getUser_map (fun u => u.selfActivated) A b
    (fun u => (updateRank_keeps _).2.2.1) fuel db visited cur v
  cases h1 : getUser (propagateTeamBusiness A b fuel db visited cur).1 v with
  | none =>
    cases h2 : getUser db v with
    | none => rfl
    | some w =>
      rw [h1, h2] at h
      simp at h
  | some w =>
    cases h2 : getUser db v with
    | none =>
      rw [h1, h2] at h
      simp at h
    | some w' => rfl

theorem stage1_isSome (db : DB) (uid : Int) (A : ℚ) (r : Option Int) {v : Int}
    (h : (getUser db v).isSome ∨ v = uid) :
    (getUser (stage1 db uid A r) v).isSome := by
  unfold stage1
  dsimp only
  set db1 := resolvedDB db uid r with hdb1
  set s := activateAndSelfVolume db1 uid A with hs
  set p := propagateTeamBusiness A s.2 s.1.length s.1 []
    ((getUser s.1 uid).bind (fun u => u.referrerId)) with hp
  have hpres : (getUser p.1 v).isSome := by
    rw [hp, propagate_isSome, hs]
    apply activate_isSome
    rw [hdb1]
    rcases h with h | h
    · exact resolve_isSome db uid r h
    · rw [h]
      exact resolve_isSome_self db uid r
  cases hm : getUser p.1 uid with
  | none => exact hpres
  | some u3 => exact getUser_isSome_setUser _ hpres

theorem stage1_dbCredit (db : DB) (uid : Int) (A : ℚ) (r : Option Int) :
    dbCredit (stage1 db uid A r) = dbCredit db := by
  unfold stage1
  dsimp only
  set db1 := resolvedDB db uid r with hdb1
  set s := activateAndSelfVolume db1 uid A with hs
  set p := propagateTeamBusiness A s.2 s.1.length s.1 []
    ((getUser s.1 uid).bind (fun u => u.referrerId)) with hp
  have hchain : dbCredit p.1 = dbCredit db := by
    rw [hp, propagate_dbCredit, hs, activate_dbCredit, hdb1, resolve_dbCredit]
  cases hm : getUser p.1 uid with
  | none => exact hchain
  | some u3 =>
    rw [dbCredit_setUser_of_get _ (show getUser p.1 (updateRank u3).id = some u3 by
      rw [(updateRank_keeps _).1, getUser_id hm]; exact hm), creditOf_updateRank]
    rw [hchain]
    ring

theorem stage1_actOf_self (db : DB) (uid : Int) (A : ℚ) (r : Option Int) :
    actOf (stage1 db uid A r) uid = (actOf db uid || decide ((20 : ℚ) ≤ A)) := by
  unfold stage1
  dsimp only
  set db1 := resolvedDB db uid r with hdb1
  set s := activateAndSelfVolume db1 uid A with hs
  set p := propagateTeamBusiness A s.2 s.1.length s.1 []
    ((getUser s.1 uid).bind (fun u => u.referrerId)) with hp
  have hact1 : actOf db1 uid = actOf db uid := by
    rw [hdb1]
    exact resolve_obs (fun u => u.selfActivated) false (fun _ _ => rfl) (fun _ _ => rfl)
      db uid r uid
  have hchain : actOf p.1 uid = (actOf db uid || decide ((20 : ℚ) ≤ A)) := by
    rw [hp, propagate_actOf, hs]
    obtain ⟨u, hu⟩ := Option.isSome_iff_exists.1 (resolve_isSome_self db uid r)
    rw [activate_actOf_self db1 uid A (show getUser db1 uid = some u by rw [hdb1]; exact hu),
      hact1]
  cases hm : getUser p.1 uid with
  | none => exact hchain
  | some u3 =>
    unfold actOf
    rw [getUser_setUser, if_pos (show (updateRank u3).id = uid by
      rw [(updateRank_keeps _).1, getUser_id hm])]
    simp only [Option.map_some', Option.getD_some]
    rw [(updateRank_keeps u3).2.2.1]
    have : ((getUser p.1 uid).map (fun u => u.selfActivated)).getD false
        = u3.selfActivated := by
      rw [hm]
      rfl
    rw [← this]
    exact hchain

theorem stage1_adcOf (db : DB) (uid : Int) (A : ℚ) (r : Option Int) (v : Int) :
    adcOf db v ≤ adcOf (stage1 db uid A r) v ∧
    adcOf (stage1 db uid A r) v
      ≤ adcOf db v + (if (!actOf db uid && decide ((20 : ℚ) ≤ A)) = true then 1 else 0) := by
  unfold stage1
  dsimp only
  set db1 := resolvedDB db uid r with hdb1
  set s := activateAndSelfVolume db1 uid A with hs
  set p := propagateTeamBusiness A s.2 s.1.length s.1 []
    ((getUser s.1 uid).bind (fun u => u.referrerId)) with hp
  have hadc1 : adcOf db1 v = adcOf db v := by
    rw [hdb1]
    exact resolve_obs (fun u => u.activeOriginCount) 0 (fun _ _ => rfl) (fun _ _ => rfl)
      db uid r v
  have hadc2 : adcOf s.1 v = adcOf db v := by
    rw [hs]
    have := activate_obs (fun u => u.activeOriginCount) 0 (fun _ _ => rfl) (fun _ => rfl)
      db1 uid A v
    exact this.trans hadc1
  have hbecame : s.2 = (!actOf db uid && decide ((20 : ℚ) ≤ A)) := by
    rw [hs, activate_became]
    rw [show actOf db1 uid = actOf db uid from resolve_obs (fun u => u.selfActivated) false
      (fun _ _ => rfl) (fun _ _ => rfl) db uid r uid]
    rw [Option.isSome_iff_exists.2 ⟨_, Option.isSome_iff_exists.1
      (resolve_isSome_self db uid r) |>.choose_spec⟩]
    simp
  have hfinal : ∀ (q1 : DB),
      adcOf (match getUser q1 uid with
        | none => q1
        | some u3 => setUser q1 (updateRank u3)) v = adcOf q1 v := by
    intro q1
    cases hm : getUser q1 uid with
    | none => rfl
    | some u3 =>
      dsimp only
      unfold adcOf
      rw [getUser_setUser]
      by_cases hv : (updateRank u3).id = v
      · rw [if_pos hv]
        have : getUser q1 v = some u3 := by
          rw [← hv, (updateRank_keeps _).1, getUser_id hm]
          exact hm
        rw [this]
        simp only [Option.map_some', Option.getD_some]
        exact (updateRank_keeps u3).2.2.2.2.1
      · rw [if_neg hv]
  rw [hfinal]
  cases hb : s.2 with
  | false =>
    rw [hp, hb, propagate_adcOf_false, hadc2]
    constructor
    · exact le_refl _
    · split_ifs <;> omega
  | true =>
    have hbounds := propagate_adcOf_true A s.1.length s.1 []
      ((getUser s.1 uid).bind (fun u => u.referrerId)) v
    rw [hadc2] at hbounds
    rw [hp, hb]
    constructor
    · exact hbounds.1
    · refine le_trans hbounds.2 ?_
      rw [← hbecame, hb]
      simp

theorem stage1_refOf_set (db : DB) (uid : Int) (A : ℚ) (r : Option Int) {v : Int} {s0 : Int}
    (h : refOf db v = some s0) : refOf (stage1 db uid A r) v = some s0 := by
  unfold stage1
  dsimp only
  set db1 := resolvedDB db uid r with hdb1
  set s := activateAndSelfVolume db1 uid A with hs
  set p := propagateTeamBusiness A s.2 s.1.length s.1 []
    ((getUser s.1 uid).bind (fun u => u.referrerId)) with hp
  have hchain : refOf p.1 v = some s0 := by
    rw [hp, propagate_refOf, hs]
    have h2 : refOf (activateAndSelfVolume db1 uid A).1 v = refOf db1 v :=
      activate_obs (fun u => u.referrerId) none (fun _ _ => rfl) (fun _ => rfl) db1 uid A v
    rw [h2, hdb1]
    exact resolve_refOf_set db uid r h
  cases hm : getUser p.1 uid with
  | none => exact hchain
  | some u3 =>
    unfold refOf
    rw [getUser_setUser]
    by_cases hv : (updateRank u3).id = v
    · rw [if_pos hv]
      have hpv : getUser p.1 v = some u3 := by
        rw [← hv, (updateRank_keeps _).1, getUser_id hm]
        exact hm
      unfold refOf at hchain
      rw [hpv] at hchain
      simp only [Option.map_some', Option.getD_some] at hchain
      simp only [Option.map_some', Option.getD_some]
      rw [(updateRank_keeps u3).2.2.2.2.2.2.2.2]
      exact hchain
    · rw [if_neg hv]
      exact hchain

/-! ### Deposit-route lemmas -/

theorem webappVerify_ok (db : DB) (uid : Int) (A : ℚ) (r : Option Int)
    (hA : 0 < A) (huid : uid ≠ 0) :
    ∃ p, webappVerify db uid A r = Except.ok p ∧
      p.1 = (referralPhase (distributeClubBonus (stage1 db uid A r) A).1 uid A).1 ∧
      p.2.referralDist
        = (referralPhase (distributeClubBonus (stage1 db uid A r) A).1 uid A).2 := by
  unfold webappVerify
  rw [if_neg (not_le.2 hA), if_neg huid]
  dsimp only
  have hpres : (getUser (referralPhase (distributeClubBonus (stage1 db uid A r) A).1 uid A).1
      uid).isSome := by
    unfold referralPhase
    apply referralFold_isSome
    show (getUser (distributeClubBonus (stage1 db uid A r) A).1 uid).isSome
    exact club_isSome _ _ (stage1_isSome db uid A r (Or.inr rfl))
  obtain ⟨u, hu⟩ := Option.isSome_iff_exists.1 hpres
  rw [hu]
  exact ⟨_, rfl, rfl, rfl⟩

theorem referralPhase_actOf (db : DB) (uid : Int) (A : ℚ) (v : Int) :
    actOf (referralPhase db uid A).1 v = actOf db v := by
  unfold referralPhase actOf
  exact referralFold_obs (fun u => u.selfActivated) false (fun _ _ => rfl)
    (fun _ _ => rfl) rfl A _ _ v

theorem referralPhase_adcOf (db : DB) (uid : Int) (A : ℚ) (v : Int) :
    adcOf (referralPhase db uid A).1 v = adcOf db v := by
  unfold referralPhase adcOf
  exact referralFold_obs (fun u => u.activeOriginCount) 0 (fun _ _ => rfl)
    (fun _ _ => rfl) rfl A _ _ v

theorem referralPhase_refOf (db : DB) (uid : Int) (A : ℚ) (v : Int) :
    refOf (referralPhase db uid A).1 v = refOf db v := by
  unfold referralPhase refOf
  exact referralFold_obs (fun u => u.referrerId) none (fun _ _ => rfl)
    (fun _ _ => rfl) rfl A _ _ v

theorem referralPhase_mstcOf (db : DB) (uid : Int) (A : ℚ) (v : Int) :
    mstcOf (referralPhase db uid A).1 v = mstcOf db v := by
  unfold referralPhase mstcOf
  exact referralFold_obs (fun u => u.balanceMstc) 0 (fun _ _ => rfl)
    (fun _ _ => rfl) rfl A _ _ v

theorem processDeposit_eq_webapp (db : DB) (uid : Int) (A : ℚ) (r : Option Int)
    (hA : 0 < A) (huid : uid ≠ 0) :
    processDeposit db uid A r
      = (referralPhase (distributeClubBonus (stage1 db uid A r) A).1 uid A).1 := by
  obtain ⟨p, hok, h1, _⟩ := webappVerify_ok db uid A r hA huid
  unfold processDeposit
  rw [hok]
  dsimp only
  exact h1

theorem processDeposit_invalid (db : DB) (uid : Int) (A : ℚ) (r : Option Int)
    (h : A ≤ 0 ∨ uid = 0) : processDeposit db uid A r = db := by
  unfold processDeposit webappVerify
  rcases h with h | h
  · rw [if_pos h]
  · by_cases hA : A ≤ 0
    · rw [if_pos hA]
    · rw [if_neg hA, if_pos h]

theorem process_actOf_self (db : DB) (uid : Int) (A : ℚ) (r : Option Int) (huid : uid ≠ 0) :
    actOf (processDeposit db uid A r) uid = (actOf db uid || decide ((20 : ℚ) ≤ A)) := by
  by_cases hA : A ≤ 0
  · rw [processDeposit_invalid db uid A r (Or.inl hA)]
    have : decide ((20 : ℚ) ≤ A) = false := by
      simp only [decide_eq_false_iff_not]
      intro hc
      linarith
    rw [this]
    simp
  · rw [processDeposit_eq_webapp db uid A r (not_le.1 hA) huid,
      referralPhase_actOf, club_actOf, stage1_actOf_self]

theorem process_actOf_ne (db : DB) (uid : Int) (A : ℚ) (r : Option Int) {v : Int}
    (hv : v ≠ uid) :
    actOf (processDeposit db uid A r) v = actOf db v := by
  by_cases hval : A ≤ 0 ∨ uid = 0
  · rw [processDeposit_invalid db uid A r hval]
  · push_neg at hval
    rw [processDeposit_eq_webapp db uid A r hval.1 hval.2,
      referralPhase_actOf, club_actOf]
    have h2 := stage1_actOf_ne db uid A r v
    rw [if_neg hv] at h2
    exact h2

theorem process_adcOf (db : DB) (uid : Int) (A : ℚ) (r : Option Int) (v : Int) :
    adcOf db v ≤ adcOf (processDeposit db uid A r) v ∧
    adcOf (processDeposit db uid A r) v
      ≤ adcOf db v + (if (!actOf db uid && decide ((20 : ℚ) ≤ A)) = true then 1 else 0) := by
  by_cases hval : A ≤ 0 ∨ uid = 0
  · rw [processDeposit_invalid db uid A r hval]
    constructor
    · exact le_refl _
    · split_ifs <;> omega
  · push_neg at hval
    rw [processDeposit_eq_webapp db uid A r hval.1 hval.2,
      referralPhase_adcOf, club_adcOf]
    exact stage1_adcOf db uid A r v

theorem process_refOf_set (db : DB) (uid : Int) (A : ℚ) (r : Option Int) {v : Int} {s0 : Int}
    (h : refOf db v = some s0) : refOf (processDeposit db uid A r) v = some s0 := by
  by_cases hval : A ≤ 0 ∨ uid = 0
  · rw [processDeposit_invalid db uid A r hval]
    exact h
  · push_neg at hval
    rw [processDeposit_eq_webapp db uid A r hval.1 hval.2,
      referralPhase_refOf, club_refOf]
    exact stage1_refOf_set db uid A r h

theorem processDeposits_actOf (uid : Int) (huid : uid ≠ 0) :
    ∀ (ds : List (ℚ × Option Int)) (db : DB),
      actOf (processDeposits db uid ds) uid
        = (actOf db uid || ds.any (fun p => decide ((20 : ℚ) ≤ p.1))) := by
  intro ds
  induction ds with
  | nil => intro db; simp [processDeposits]
  | cons d rest ih =>
    intro db
    have hstep : processDeposits db uid (d :: rest)
        = processDeposits (processDeposit db uid d.1 d.2) uid rest := rfl
    rw [hstep, ih, process_actOf_self db uid d.1 d.2 huid]
    simp [Bool.or_assoc]

theorem processDeposits_adcOf (uid : Int) (huid : uid ≠ 0) :
    ∀ (ds : List (ℚ × Option Int)) (db : DB) (v : Int),
      adcOf db v ≤ adcOf (processDeposits db uid ds) v ∧
      adcOf (processDeposits db uid ds) v
        ≤ adcOf db v + (if actOf db uid = true then 0 else 1) := by
  intro ds
  induction ds with
  | nil =>
    intro db v
    refine ⟨le_refl _, ?_⟩
    show adcOf db v ≤ _
    split_ifs <;> omega
  | cons d rest ih =>
    intro db v
    have hstep : processDeposits db uid (d :: rest)
        = processDeposits (processDeposit db uid d.1 d.2) uid rest := rfl
    rw [hstep]
    obtain ⟨l1, u1⟩ := process_adcOf db uid d.1 d.2 v
    obtain ⟨l2, u2⟩ := ih (processDeposit db uid d.1 d.2) v
    have hact1 : actOf (processDeposit db uid d.1 d.2) uid
        = (actOf db uid || decide ((20 : ℚ) ≤ d.1)) :=
      process_actOf_self db uid d.1 d.2 huid
    refine ⟨le_trans l1 l2, ?_⟩
    rw [hact1] at u2
    cases ha : actOf db uid <;> cases hd : decide ((20 : ℚ) ≤ d.1) <;>
      (simp only [ha, hd] at u1 u2 ⊢; simp at u1 u2 ⊢; omega)

/-! ### Rank lemmas -/

theorem metricsVal_eq (tv : ℚ) (adc : Int) (act : Bool) :
    metricsVal tv adc act
      = if tv ≥ 100000 then 5 else if tv ≥ 25000 then 4 else if tv ≥ 5000 then 3
        else if tv ≥ 1000 ∧ adc ≥ 10 then 2 else if act = true then 1 else 0 := by
  unfold metricsVal specEvaluateRank
  split_ifs <;> decide

theorem mv_eq5 {tv : ℚ} (adc : Int) (act : Bool) (h : tv ≥ 100000) :
    metricsVal tv adc act = 5 := by
  rw [metricsVal_eq, if_pos h]

theorem mv_ge4 {tv : ℚ} (adc : Int) (act : Bool) (h : tv ≥ 25000) :
    4 ≤ metricsVal tv adc act := by
  rw [metricsVal_eq]
  split_ifs <;> first | omega | linarith

theorem mv_ge3 {tv : ℚ} (adc : Int) (act : Bool) (h : tv ≥ 5000) :
    3 ≤ metricsVal tv adc act := by
  rw [metricsVal_eq]
  split_ifs <;> first | omega | linarith

theorem mv_ge2 {tv : ℚ} {adc : Int} (act : Bool) (h1 : tv ≥ 1000) (h2 : adc ≥ 10) :
    2 ≤ metricsVal tv adc act := by
  rw [metricsVal_eq]
  split_ifs with a1 a2 a3 a4 a5 <;> first | omega | exact absurd ⟨h1, h2⟩ a4

theorem mv_ge1 {act : Bool} (tv : ℚ) (adc : Int) (h : act = true) :
    1 ≤ metricsVal tv adc act := by
  rw [metricsVal_eq]
  split_ifs with a1 a2 a3 a4 a5 <;> first | omega | exact absurd h a5

theorem metricsVal_mono {tv tv' : ℚ} {adc adc' : Int} {act act' : Bool}
    (htv : tv ≤ tv') (hadc : adc ≤ adc') (hact : act = true → act' = true) :
    metricsVal tv adc act ≤ metricsVal tv' adc' act' := by
  conv_lhs => rw [metricsVal_eq]
  split_ifs with c1 c2 c3 c4 c5
  · exact ge_of_eq (mv_eq5 adc' act' (by linarith))
  · exact mv_ge4 adc' act' (by linarith)
  · exact mv_ge3 adc' act' (by linarith)
  · exact mv_ge2 act' (by linarith [c4.1]) (by omega)
  · exact mv_ge1 tv' adc' (hact c5)
  · exact Nat.zero_le _

theorem rankVal_creator : rankVal "creator" = 5 := by decide

theorem rankVal_visionary : rankVal "visionary" = 4 := by decide

theorem rankVal_advisor : rankVal "advisor" = 3 := by decide

theorem rankVal_lifeChanger : rankVal "life_changer" = 2 := by decide

theorem rankVal_origin : rankVal "origin" = 1 := by decide

theorem rankVal_user : rankVal "user" = 0 := by decide

theorem rankVal_updateRank_ge (u : UserRec) :
    metricsVal u.totalTeamBusiness u.activeOriginCount u.selfActivated
      ≤ rankVal (updateRank u).role := by
  rw [metricsVal_eq]
  unfold updateRank
  dsimp only
  split_ifs <;>
    simp [rankVal_creator, rankVal_visionary, rankVal_advisor, rankVal_lifeChanger,
      rankVal_origin, rankVal_user]

theorem rankVal_updateRank_le (u : UserRec) :
    rankVal (updateRank u).role
      ≤ max (metricsVal u.totalTeamBusiness u.activeOriginCount u.selfActivated)
          (rankVal u.role) := by
  rw [metricsVal_eq]
  unfold updateRank
  dsimp only
  split_ifs <;>
    first
    | exact le_max_right _ _
    | simp [rankVal_creator, rankVal_visionary, rankVal_advisor, rankVal_lifeChanger,
        rankVal_origin, rankVal_user, le_max_iff]

theorem rankEvent_step (u : UserRec) (e : RankEvent)
    (hinv : rankInvariant u) (he : 0 ≤ e.da ∧ 0 ≤ e.dd) :
    rankVal u.role ≤ rankVal (applyRankEvent u e).role ∧
    rankInvariant (applyRankEvent u e) := by
  unfold applyRankEvent
  dsimp only
  set u1 : UserRec := { u with
    totalTeamBusiness := u.totalTeamBusiness + e.da,
    activeOriginCount := u.activeOriginCount + e.dd,
    selfActivated := u.selfActivated || e.activate,
    role := if e.activate && !u.selfActivated then "origin" else u.role } with hu1
  have hmv1 : metricsVal u.totalTeamBusiness u.activeOriginCount u.selfActivated
      ≤ metricsVal u1.totalTeamBusiness u1.activeOriginCount u1.selfActivated := by
    apply metricsVal_mono
    · show u.totalTeamBusiness ≤ u.totalTeamBusiness + e.da
      linarith [he.1]
    · show u.activeOriginCount ≤ u.activeOriginCount + e.dd
      omega
    · intro h
      show (u.selfActivated || e.activate) = true
      rw [h]
      rfl
  have hinv1 : rankVal u1.role
      ≤ metricsVal u1.totalTeamBusiness u1.activeOriginCount u1.selfActivated := by
    by_cases hb : (e.activate && !u.selfActivated) = true
    · have hrole : u1.role = "origin" := by rw [hu1]; dsimp only; rw [if_pos hb]
      rw [hrole]
      have hact1 : u1.selfActivated = true := by
        rw [hu1]
        dsimp only
        rw [Bool.and_eq_true] at hb
        rw [hb.1]
        simp
      rw [rankVal_origin]
      exact mv_ge1 _ _ hact1
    · have hrole : u1.role = u.role := by rw [hu1]; dsimp only; rw [if_neg hb]
      rw [hrole]
      exact le_trans hinv hmv1
  have hge := rankVal_updateRank_ge u1
  have hle := rankVal_updateRank_le u1
  rw [max_eq_left hinv1] at hle
  have heq : rankVal (updateRank u1).role
      = metricsVal u1.totalTeamBusiness u1.activeOriginCount u1.selfActivated :=
    le_antisymm hle hge
  constructor
  · exact le_trans hinv (le_trans hmv1 hge)
  · unfold rankInvariant
    rw [(updateRank_keeps u1).2.2.2.1, (updateRank_keeps u1).2.2.2.2.1,
      (updateRank_keeps u1).2.2.1, heq]

theorem rankEvents_inv_mono :
    ∀ (es : List RankEvent) (u : UserRec), rankInvariant u →
      (∀ e ∈ es, 0 ≤ e.da ∧ 0 ≤ e.dd) →
      rankVal u.role ≤ rankVal (applyRankEvents u es).role ∧
      rankInvariant (applyRankEvents u es) := by
  intro es
  induction es with
  | nil => intro u hinv _; exact ⟨le_refl _, hinv⟩
  | cons e rest ih =>
    intro u hinv hval
    have hstep := rankEvent_step u e hinv (hval e (List.mem_cons_self e rest))
    have hrest := ih (applyRankEvent u e) hstep.2
      (fun e' he' => hval e' (List.mem_cons_of_mem _ he'))
    exact ⟨le_trans hstep.1 hrest.1, hrest.2⟩

/-! ### Claim theorems -/

/-- C4 (amended): the rank evaluator checks the thresholds highest-first
with the first match winning (creator at 100000, visionary at 25000,
advisor at 5000, life_changer at 1000 with 10 active descendants, origin
when activated), but in the final case it keeps the currently stored
rank when one is set and yields the unranked role `"user"` only when the
stored role is empty — it does not return unranked unconditionally. -/
theorem claim_C4 : ∀ u : UserRec,
    (specEvaluateRank u.totalTeamBusiness u.activeOriginCount u.selfActivated ≠ "user" →
      (updateRank u).role
        = specEvaluateRank u.totalTeamBusiness u.activeOriginCount u.selfActivated) ∧
    (specEvaluateRank u.totalTeamBusiness u.activeOriginCount u.selfActivated = "user" →
      (updateRank u).role = (if u.role = "" then "user" else u.role)) := by
  intro u
  unfold specEvaluateRank updateRank
  dsimp only
  split_ifs <;> constructor <;> intro h <;>
    first
    | rfl
    | exact absurd h (by decide)
    | exact absurd rfl h

/-- C4 counterexample: on the input (team_volume 0, active descendants
0, not activated, current rank creator) the claimed evaluator returns
unranked, but `update_rank` keeps the stored rank `"creator"`. -/
theorem claim_C4_counterexample :
    (updateRank { id := 1, role := "creator", selfActivated := false, totalTeamBusiness := 0, activeOriginCount := 0 }).role = "creator" ∧
    specEvaluateRank 0 0 false = "user" ∧
    ("creator" : String) ≠ "user" := by
  refine ⟨?_, ?_, by decide⟩
  · norm_num [updateRank]
    decide
  · norm_num [specEvaluateRank]

theorem expectedLines_length (A : ℚ) :
    ∀ ups : List (Nat × UserRec),
      (expectedLines A ups).length
        = (ups.filter (fun lu => decide (0 < levelPct lu.1 lu.2))).length := by
  intro ups
  induction ups with
  | nil => rfl
  | cons lu rest ih =>
    unfold expectedLines at ih ⊢
    rw [List.filterMap_cons, List.filter_cons]
    by_cases hp : 0 < levelPct lu.1 lu.2
    · simp [hp, ih]
    · simp [hp, ih]

/-- C10 (amended): the referral distribution produces exactly one line
item per ancestor level whose percentage is positive — the line names
the sponsor when they qualify and the pool (level 0) otherwise — but a
level whose percentage is zero (for example a level-1 sponsor whose rank
is outside the percentage table) is skipped entirely and produces no
line item. -/
theorem claim_C10 : ∀ (db : DB) (uid : Int) (A : ℚ),
    (referralPhase db uid A).2 = expectedLines A (getUplines db uid) ∧
    (referralPhase db uid A).2.length
      = ((getUplines db uid).filter
          (fun lu => decide (0 < levelPct lu.1 lu.2))).length := by
  intro db uid A
  constructor
  · unfold referralPhase
    rw [referralFold_lines]
    simp
  · unfold referralPhase
    rw [referralFold_lines]
    simp [expectedLines_length]

theorem levelPct_nonneg (lvl : Nat) (u : UserRec) : 0 ≤ levelPct lvl u := by
  unfold levelPct ROLE_LEVEL1_PCT
  split_ifs <;> norm_num

/-- Bridge between boolean equality and decidable equality on strings. -/
theorem str_beq_decide (s t : String) : (s == t) = decide (s = t) := by
  rw [Bool.eq_iff_iff]
  simp [beq_iff_eq]

/-- C3 (confirmed): the referral distribution considers at most 3
ancestor levels (level 1 the direct sponsor); the level-1 percentage is
looked up from the sponsor's current rank (origin 5%, life_changer 10%,
advisor 15%, visionary 20%, creator 25%, zero otherwise) and the bonus
is credited to the sponsor iff they are activated; level 2 pays a fixed
3% iff the ancestor's rank is life_changer or higher; level 3 pays a
fixed 2% iff the rank is advisor or higher; a non-qualifying level's
computed amount is credited to the company pool. -/
theorem claim_C3 :
    (∀ (db : DB) (uid : Int), (getUplines db uid).length ≤ 3) ∧
    (∀ (db : DB) (uid : Int) (lu : Nat × UserRec), lu ∈ getUplines db uid →
      1 ≤ lu.1 ∧ lu.1 ≤ 3) ∧
    (ROLE_LEVEL1_PCT "origin" = 5 / 100 ∧ ROLE_LEVEL1_PCT "life_changer" = 10 / 100 ∧
      ROLE_LEVEL1_PCT "advisor" = 15 / 100 ∧ ROLE_LEVEL1_PCT "visionary" = 20 / 100 ∧
      ROLE_LEVEL1_PCT "creator" = 25 / 100 ∧ ROLE_LEVEL1_PCT "user" = 0) ∧
    (∀ u : UserRec, levelPct 1 u = ROLE_LEVEL1_PCT (roleKey u) ∧
      levelPct 2 u = 3 / 100 ∧ levelPct 3 u = 2 / 100 ∧
      levelQualifies 1 u = u.selfActivated ∧
      levelQualifies 2 u
        = (roleKey u == "life_changer" || roleKey u == "advisor"
            || roleKey u == "visionary" || roleKey u == "creator") ∧
      levelQualifies 3 u
        = (roleKey u == "advisor" || roleKey u == "visionary" || roleKey u == "creator")) ∧
    (∀ (db : DB) (lines : List DistLine) (A : ℚ) (lvl : Nat) (up w : UserRec),
      getUser db up.id = some w → 0 < A →
      (levelQualifies lvl up = true →
        clubOf (referralStep A (db, lines) (lvl, up)).1 up.id
          = clubOf db up.id + round2 (A * levelPct lvl up)) ∧
      (levelQualifies lvl up = false →
        musdOf (referralStep A (db, lines) (lvl, up)).1 COMPANY_USER_ID
          = musdOf db COMPANY_USER_ID + round2 (A * levelPct lvl up))) := by
  refine ⟨getUplines_length, ?_, ?_, ?_, ?_⟩
  · intro db uid lu hmem
    exact (getUplines_facts db uid hmem).2
  · refine ⟨?_, ?_, ?_, ?_, ?_, ?_⟩ <;> simp [ROLE_LEVEL1_PCT]
  · intro u
    refine ⟨rfl, rfl, rfl, rfl, ?_, ?_⟩
    · show (["life_changer", "advisor", "visionary", "creator"].contains (roleKey u)) = _
      simp [List.contains_cons, Bool.or_assoc, str_beq_decide]
    · show (["advisor", "visionary", "creator"].contains (roleKey u)) = _
      simp [List.contains_cons, Bool.or_assoc, str_beq_decide]
  · intro db lines A lvl up w hw hA
    constructor
    · intro hq
      by_cases hp : levelPct lvl up ≤ 0
      · rw [referralStep_eq_skip A (db, lines) (lvl, up) hp]
        have hp0 : levelPct lvl up = 0 := le_antisymm hp (levelPct_nonneg lvl up)
        show clubOf db up.id = clubOf db up.id + round2 (A * levelPct lvl up)
        rw [hp0, mul_zero, round2_zero, add_zero]
      · rw [referralStep_eq_credit A (db, lines) (lvl, up) hp hq]
        exact creditClub_clubOf_self _ _ hw
    · intro hq
      by_cases hp : levelPct lvl up ≤ 0
      · rw [referralStep_eq_skip A (db, lines) (lvl, up) hp]
        have hp0 : levelPct lvl up = 0 := le_antisymm hp (levelPct_nonneg lvl up)
        show musdOf db COMPANY_USER_ID = musdOf db COMPANY_USER_ID + round2 (A * levelPct lvl up)
        rw [hp0, mul_zero, round2_zero, add_zero]
      · rw [referralStep_eq_pool A (db, lines) (lvl, up) hp (by rw [hq]; exact Bool.false_ne_true)]
        have hb : 0 ≤ round2 (A * levelPct lvl up) :=
          round2_nonneg (le_of_lt (mul_pos hA (lt_of_not_le hp)))
        by_cases hb0 : round2 (A * levelPct lvl up) ≤ 0
        · have : round2 (A * levelPct lvl up) = 0 := le_antisymm hb0 hb
          rw [this]
          unfold addToCompanyPool
          rw [if_pos (le_refl 0), add_zero]
        · show musdOf (addToCompanyPool db (round2 (A * levelPct lvl up))) COMPANY_USER_ID = _
          exact addPool_musdOf_company db (lt_of_not_le hb0)

/-- C4 witness: a fresh activated account whose metrics evaluate to
Origin is indeed re-ranked to Origin by `update_rank`. -/
theorem claim_C4_witness :
    specEvaluateRank 0 0 true ≠ "user" ∧
    (updateRank { id := 1, role := "", selfActivated := true, totalTeamBusiness := 0, activeOriginCount := 0 }).role = specEvaluateRank 0 0 true := by
  constructor
  · norm_num [specEvaluateRank]
    decide
  · exact (claim_C4 { id := 1, role := "", selfActivated := true, totalTeamBusiness := 0, activeOriginCount := 0 }).1
      (by show specEvaluateRank 0 0 true ≠ "user"; norm_num [specEvaluateRank]; decide)

/-- C3 witness: an activated Creator sponsor on the first ancestor level
is credited 25% of a 100 deposit as club income. -/
theorem claim_C3_witness :
    getUser [{ id := 2, role := "creator", selfActivated := true }] (2 : Int) = some { id := 2, role := "creator", selfActivated := true } ∧
    (0 : ℚ) < 100 ∧
    clubOf (referralStep 100 ([{ id := 2, role := "creator", selfActivated := true }], []) (1, { id := 2, role := "creator", selfActivated := true })).1 2
      = clubOf [{ id := 2, role := "creator", selfActivated := true }] 2 + round2 (100 * levelPct 1 { id := 2, role := "creator", selfActivated := true }) := by
  refine ⟨by norm_num [getUser], by norm_num, ?_⟩
  exact (claim_C3.2.2.2.2 [{ id := 2, role := "creator", selfActivated := true }] []
      100 1 { id := 2, role := "creator", selfActivated := true } { id := 2, role := "creator", selfActivated := true }
      (by norm_num [getUser]) (by norm_num)).1 rfl

/-- C9 (amended): a sponsor link, once stored, is never overwritten by
any later deposit; the bot-side helper `link_referrer_if_needed` indeed
enforces every claimed guard (link only when unset, ref id truthy, not
the user itself, and the referrer row exists); but the deposit route's
own account-resolution path applies no such validation — creating a
missing account stores the proposed ref id raw, without the existence
and self-referral checks. -/
theorem claim_C9 :
    (∀ (db : DB) (uid : Int) (A : ℚ) (r : Option Int) (v s0 : Int),
      refOf db v = some s0 → refOf (processDeposit db uid A r) v = some s0) ∧
    (∀ (db : DB) (uid : Int) (mr : Option Int),
      refOf (linkReferrerIfNeeded db uid mr) uid = refOf db uid ∨
      ∃ r, mr = some r ∧ r ≠ 0 ∧ r ≠ uid ∧ (getUser db r).isSome = true ∧
        refOf db uid = none ∧
        refOf (linkReferrerIfNeeded db uid mr) uid = some r) ∧
    (∀ (db : DB) (uid : Int) (r : Int), getUser db uid = none →
      refOf (getOrCreateUser db uid (some r)) uid = some r) := by
  refine ⟨fun db uid A r v s0 h => process_refOf_set db uid A r h, ?_, ?_⟩
  · intro db uid mr
    unfold linkReferrerIfNeeded
    cases hg : getUser db uid with
    | none => exact Or.inl rfl
    | some user =>
      dsimp only
      by_cases h1 : user.referrerId ≠ none
      · rw [if_pos h1]; exact Or.inl rfl
      · rw [if_neg h1]
        have h1e : user.referrerId = none := not_not.1 h1
        cases mr with
        | none => exact Or.inl rfl
        | some r =>
          dsimp only
          by_cases h2 : r = 0
          · rw [if_pos h2]; exact Or.inl rfl
          · rw [if_neg h2]
            by_cases h3 : r = uid
            · rw [if_pos h3]; exact Or.inl rfl
            · rw [if_neg h3]
              cases hr : getUser db r with
              | none => exact Or.inl rfl
              | some ref =>
                refine Or.inr ⟨r, rfl, h2, h3, by rw [hr]; rfl, ?_, ?_⟩
                · unfold refOf
                  rw [hg]
                  simp [h1e]
                · unfold refOf
                  rw [getUser_setUser]
                  dsimp only
                  rw [if_pos (getUser_id hg)]
                  simp [getUser_id hr]
  · intro db uid r h
    unfold getOrCreateUser refOf
    rw [h]
    dsimp only
    rw [getUser_setUser]
    simp [freshUser]

/-- C9 counterexample: user 5 has no referrer; a deposit by user 5 that
names user 5 itself as the referrer stores the self-link — the deposit
route skips the self-referral check the claim describes. -/
theorem claim_C9_counterexample :
    refOf [{ id := 5 }] 5 = none ∧
    refOf (processDeposit [{ id := 5 }] 5 100 (some 5)) 5 = some 5 := by
  constructor
  · norm_num +decide [refOf, getUser]
  · norm_num +decide [processDeposit, webappVerify, stage1, resolvedDB, getOrCreateUser,
      forceLinkReferrer, getUser, setUser, freshUser, activateAndSelfVolume,
      propagateTeamBusiness, updateRank, refOf, distributeClubBonus, referralPhase,
      getUplines, getUplinesAux, referralStep, levelPct, ROLE_LEVEL1_PCT, roleKey,
      lowerString, lowerChar, round2, clubAchieverRoles, addToCompanyPool,
      getCompanyUser, creditClubIncome, COMPANY_USER_ID]

/-- C9 witness: user 1 already linked to sponsor 2 keeps that link
through a deposit naming a different referrer. -/
theorem claim_C9_witness :
    refOf [{ id := 1, referrerId := some 2 }] 1 = some 2 ∧
    refOf (processDeposit [{ id := 1, referrerId := some 2 }] 1 100 (some 3)) 1 = some 2 := by
  have h : refOf [{ id := 1, referrerId := some 2 }] 1 = some 2 := by
    norm_num +decide [refOf, getUser]
  exact ⟨h, claim_C9.1 _ 1 100 (some 3) 1 2 h⟩

/-- C5 (amended): the upward team-business walk keeps a visited set and
silently stops at the first repeated account — the chain of processed
ancestors never holds a duplicate and never re-enters the visited set —
and a deposit on a database whose sponsor links form a cycle still
completes successfully; no error is raised and no run diverges. -/
theorem claim_C5 :
    (∀ (A : ℚ) (b : Bool) (fuel : Nat) (db : DB) (visited : List Int) (cur : Option Int),
      (propagateTeamBusiness A b fuel db visited cur).2.Nodup ∧
      ∀ i ∈ (propagateTeamBusiness A b fuel db visited cur).2, i ∉ visited) ∧
    (∀ (db : DB) (uid : Int) (A : ℚ) (r : Option Int), 0 < A → uid ≠ 0 →
      ∃ p, webappVerify db uid A r = Except.ok p) := by
  constructor
  · intro A b fuel db visited cur
    exact propagate_trace A b fuel db visited cur
  · intro db uid A r hA huid
    obtain ⟨p, hok, _, _⟩ := webappVerify_ok db uid A r hA huid
    exact ⟨p, hok⟩

/-- C5 counterexample: on a two-account database whose sponsor links
form the cycle 1 → 2 → 1, a deposit by user 1 completes with a success
response instead of the claimed fatal error. -/
theorem claim_C5_counterexample :
    refOf [{ id := 1, referrerId := some 2 }, { id := 2, referrerId := some 1 }] 1 = some 2 ∧
    refOf [{ id := 1, referrerId := some 2 }, { id := 2, referrerId := some 1 }] 2 = some 1 ∧
    (webappVerify [{ id := 1, referrerId := some 2 }, { id := 2, referrerId := some 1 }] 1 100 none).isOk = true := by
  refine ⟨by norm_num +decide [refOf, getUser], by norm_num +decide [refOf, getUser], ?_⟩
  obtain ⟨p, hok, _, _⟩ := webappVerify_ok
    [{ id := 1, referrerId := some 2 }, { id := 2, referrerId := some 1 }] 1 100 none
    (by norm_num) (by norm_num)
  rw [hok]
  rfl

/-- C5 witness: the success guarantee instantiated on the cyclic
database: the deposit returns ok. -/
theorem claim_C5_witness :
    (0 : ℚ) < 100 ∧ (1 : Int) ≠ 0 ∧
    ∃ p, webappVerify [{ id := 1, referrerId := some 2 }, { id := 2, referrerId := some 1 }] 1 100 none = Except.ok p :=
  ⟨by norm_num, by norm_num,
    claim_C5.2 [{ id := 1, referrerId := some 2 }, { id := 2, referrerId := some 1 }] 1 100 none
      (by norm_num) (by norm_num)⟩

/-- C2 (amended): only the debug simulation route carries an idempotency
check.  When the supplied MUSD external reference is already present in
the transaction log, the call returns ok with the state unchanged and
the response flagged as a duplicate; on a fresh reference the call is
not a duplicate and records the reference in the appended deposit
transaction.  The production deposit route has no such check: every
accepted call applies its effects again (see the counterexample). -/
theorem claim_C2 :
    ∀ (st : SimState) (tgId : Int) (amount : ℚ) (e : String) (txMstc : Option String)
      (st' : SimState) (resp : SimResp),
      debugSimulateDeposit st tgId amount (some e) txMstc = .ok (st', resp) →
      (st.txs.any (fun t => t.externalId == some e) = true →
        st' = st ∧ resp.duplicate = true) ∧
      (st.txs.any (fun t => t.externalId == some e) = false →
        resp.duplicate = false ∧ ∃ t ∈ st'.txs, t.externalId = some e) := by
  intro st tgId amount e txMstc st' resp hok
  unfold debugSimulateDeposit at hok
  by_cases h0 : tgId = 0
  · rw [if_pos h0] at hok
    exact absurd hok (by simp)
  · rw [if_neg h0] at hok
    cases hf : List.find? (fun u => u.telegramId == tgId) st.users with
    | none =>
      rw [hf] at hok
      exact absurd hok (by simp)
    | some user =>
      rw [hf] at hok
      dsimp only at hok
      by_cases hd : st.txs.any (fun t => t.externalId == some e) = true
      · rw [if_pos hd] at hok
        simp only [Except.ok.injEq, Prod.mk.injEq] at hok
        constructor
        · intro _
          exact ⟨hok.1.symm, by rw [← hok.2]⟩
        · intro hfalse
          simp [hfalse] at hd
      · rw [if_neg hd] at hok
        simp only [Except.ok.injEq, Prod.mk.injEq] at hok
        constructor
        · intro htrue
          exact absurd htrue hd
        · intro _
          refine ⟨by rw [← hok.2], ?_⟩
          refine ⟨⟨user.id, amount, "MUSD", "deposit", some e⟩, ?_, rfl⟩
          rw [← hok.1]
          dsimp only
          cases txMstc with
          | none =>
            dsimp only
            exact List.mem_append_right _ (List.mem_singleton.2 rfl)
          | some e2 =>
            dsimp only
            exact List.mem_append_left _ (List.mem_append_right _ (List.mem_singleton.2 rfl))

set_option maxHeartbeats 1600000 in
/-- C2 counterexample: submitting the identical deposit request twice
through the production route counts the amount twice — user 1's team
business reaches 200 after two identical 100-unit deposits, not the
once-only 100 the idempotency claim promises. -/
theorem claim_C2_counterexample :
    tvOf (processDeposits [{ id := 1 }] 1 [(100, none), (100, none)]) 1 = 200 ∧
    tvOf (processDeposits [{ id := 1 }] 1 [(100, none)]) 1 = 100 ∧
    ((200 : ℚ) ≠ 100) := by
  refine ⟨?_, ?_, by norm_num⟩ <;>
    norm_num +decide [processDeposits, processDeposit, webappVerify, stage1, resolvedDB,
      getOrCreateUser, forceLinkReferrer, getUser, setUser, freshUser,
      activateAndSelfVolume, propagateTeamBusiness, updateRank, tvOf,
      distributeClubBonus, referralPhase, getUplines, getUplinesAux, referralStep,
      levelPct, ROLE_LEVEL1_PCT, roleKey, lowerString, lowerChar, round2,
      clubAchieverRoles, addToCompanyPool, getCompanyUser, creditClubIncome,
      COMPANY_USER_ID]

/-- C2 witness: resubmitting a recorded external reference to the debug
simulation route returns the state unchanged and flags the duplicate. -/
theorem claim_C2_witness :
    debugSimulateDeposit ⟨[{ id := 1, telegramId := 1 }], [⟨1, 100, "MUSD", "deposit", some "e1"⟩]⟩ 1 50 (some "e1") none
      = .ok (⟨[{ id := 1, telegramId := 1 }], [⟨1, 100, "MUSD", "deposit", some "e1"⟩]⟩, ⟨true, 1, 50, "user", false, 0, none, none⟩) ∧
    (⟨[{ id := 1, telegramId := 1 }], [⟨1, 100, "MUSD", "deposit", some "e1"⟩]⟩ : SimState)
      = ⟨[{ id := 1, telegramId := 1 }], [⟨1, 100, "MUSD", "deposit", some "e1"⟩]⟩ ∧
    (⟨true, 1, 50, "user", false, 0, none, none⟩ : SimResp).duplicate = true := by
  have hok : debugSimulateDeposit ⟨[{ id := 1, telegramId := 1 }], [⟨1, 100, "MUSD", "deposit", some "e1"⟩]⟩ 1 50 (some "e1") none
      = .ok (⟨[{ id := 1, telegramId := 1 }], [⟨1, 100, "MUSD", "deposit", some "e1"⟩]⟩, ⟨true, 1, 50, "user", false, 0, none, none⟩) := by
    norm_num +decide [debugSimulateDeposit]
  refine ⟨hok, ?_⟩
  exact (claim_C2 _ 1 50 "e1" none _ _ hok).1 (by norm_num +decide)

/-- C8 (confirmed): for the depositing account, activation after a
deposit sequence equals the previous activation state or-ed with
whether some deposit reached the 20 threshold — so activation is
monotone and triggered exactly by a qualifying deposit — and any
ancestor's active-origin count grows by at most 1 over the account's
whole deposit history, and not at all when the account was already
activated. -/
theorem claim_C8 (uid : Int) (huid : uid ≠ 0) (ds : List (ℚ × Option Int)) (db : DB) :
    actOf (processDeposits db uid ds) uid
      = (actOf db uid || ds.any (fun p => decide ((20 : ℚ) ≤ p.1))) ∧
    ∀ v : Int, adcOf db v ≤ adcOf (processDeposits db uid ds) v ∧
      adcOf (processDeposits db uid ds) v
        ≤ adcOf db v + (if actOf db uid = true then 0 else 1) :=
  ⟨processDeposits_actOf uid huid ds db, fun v => (processDeposits_adcOf uid huid ds db v)⟩

/-- C8 witness: a fresh account that deposits 25 is activated by that
deposit. -/
theorem claim_C8_witness :
    (1 : Int) ≠ 0 ∧
    actOf (processDeposits [{ id := 1 }] 1 [(25, none)]) 1
      = (actOf [{ id := 1 }] 1
          || [((25 : ℚ), (none : Option Int))].any (fun p => decide ((20 : ℚ) ≤ p.1))) :=
  ⟨by norm_num, (claim_C8 1 (by norm_num) [(25, none)] [{ id := 1 }]).1⟩

/-- C7 (confirmed): starting from any account whose stored rank does not
exceed what its metrics justify (every account the backend creates
starts that way), a history of growth events — nonnegative team-business
and descendant increments, optional activation — never lowers the rank:
the rank after a prefix of the history is at most the rank after the
whole history. -/
theorem claim_C7 (u : UserRec) (hinv : rankInvariant u) (es1 es2 : List RankEvent)
    (h1 : ∀ e ∈ es1, 0 ≤ e.da ∧ 0 ≤ e.dd) (h2 : ∀ e ∈ es2, 0 ≤ e.da ∧ 0 ≤ e.dd) :
    rankVal (applyRankEvents u es1).role
      ≤ rankVal (applyRankEvents u (es1 ++ es2)).role := by
  have hstep := rankEvents_inv_mono es1 u hinv h1
  have hrest := rankEvents_inv_mono es2 (applyRankEvents u es1) hstep.2 h2
  have happ : applyRankEvents u (es1 ++ es2)
      = applyRankEvents (applyRankEvents u es1) es2 := by
    unfold applyRankEvents
    exact List.foldl_append _ _ _ _
  rw [happ]
  exact hrest.1

/-- C7 witness: a fresh account whose history activates it and then adds
5000 of team business moves from Origin up to Advisor, never down. -/
theorem claim_C7_witness :
    rankInvariant { id := 1 } ∧
    rankVal (applyRankEvents { id := 1 } [⟨30, 0, true⟩]).role
      ≤ rankVal (applyRankEvents { id := 1 } ([⟨30, 0, true⟩] ++ [⟨5000, 0, false⟩])).role := by
  have hinv : rankInvariant { id := 1 } := by
    norm_num +decide [rankInvariant, rankVal, metricsVal, specEvaluateRank]
  refine ⟨hinv, ?_⟩
  exact claim_C7 { id := 1 } hinv [⟨30, 0, true⟩] [⟨5000, 0, false⟩]
    (by intro e he; simp at he; subst he; norm_num)
    (by intro e he; simp at he; subst he; norm_num)

/-- C1 (amended): an accepted deposit never performs the claimed 30/70
MSTC/MUSD split of the deposit — no account's MSTC balance changes at
all, and stage 1 (account resolution, activation, team business,
re-ranks) credits no balance.  The only credits an accepted deposit
creates are minted on top of the amount: the club-bonus phase's delta
plus the sum of the referral commission lines. -/
theorem claim_C1 (db : DB) (uid : Int) (A : ℚ) (r : Option Int)
    (hA : 0 < A) (huid : uid ≠ 0) :
    ∃ p, webappVerify db uid A r = Except.ok p ∧
      (∀ v : Int, mstcOf p.1 v = mstcOf db v) ∧
      dbCredit (stage1 db uid A r) = dbCredit db ∧
      dbCredit p.1
        = dbCredit (distributeClubBonus (stage1 db uid A r) A).1
          + ((p.2.referralDist.map (fun l => l.amount)).sum) := by
  obtain ⟨p, hok, h1, h2⟩ := webappVerify_ok db uid A r hA huid
  refine ⟨p, hok, ?_, stage1_dbCredit db uid A r, ?_⟩
  · intro v
    rw [h1, referralPhase_mstcOf, club_mstcOf, stage1_mstcOf]
  · rw [h1, h2]
    unfold referralPhase
    have hrows : ∀ lu ∈ getUplines (distributeClubBonus (stage1 db uid A r) A).1 uid,
        (getUser (distributeClubBonus (stage1 db uid A r) A).1 lu.2.id).isSome := by
      intro lu hm
      rw [(getUplines_facts _ uid hm).1]
      rfl
    rw [referralFold_dbCredit A hA _ _ _ hrows, referralFold_lines]
    simp

/-- C1 counterexample: a 100-unit deposit into an empty database leaves
total balances at 2 (the 2% club cut, parked in the company pool), not
at the 100 a conserving 30/70 split of the deposit would produce. -/
theorem claim_C1_counterexample :
    dbCredit (processDeposit [] 7 100 none) = 2 ∧
    dbCredit ([] : DB) = 0 ∧
    ((2 : ℚ) ≠ 100) := by
  refine ⟨?_, by norm_num [dbCredit], by norm_num⟩
  norm_num +decide [processDeposit, webappVerify, stage1, resolvedDB, getOrCreateUser,
    forceLinkReferrer, getUser, setUser, freshUser, activateAndSelfVolume,
    propagateTeamBusiness, updateRank, distributeClubBonus, referralPhase,
    getUplines, getUplinesAux, referralStep, levelPct, ROLE_LEVEL1_PCT, roleKey,
    lowerString, lowerChar, round2, clubAchieverRoles, addToCompanyPool,
    getCompanyUser, creditClubIncome, COMPANY_USER_ID, dbCredit, creditOf]

/-- C1 witness: the accounting identity instantiated on the empty
database with a 100-unit deposit. -/
theorem claim_C1_witness :
    (0 : ℚ) < 100 ∧ (7 : Int) ≠ 0 ∧
    ∃ p, webappVerify [] 7 100 none = Except.ok p ∧
      (∀ v : Int, mstcOf p.1 v = mstcOf [] v) ∧
      dbCredit (stage1 [] 7 100 none) = dbCredit [] ∧
      dbCredit p.1
        = dbCredit (distributeClubBonus (stage1 [] 7 100 none) 100).1
          + ((p.2.referralDist.map (fun l => l.amount)).sum) :=
  ⟨by norm_num, by norm_num, claim_C1 [] 7 100 none (by norm_num) (by norm_num)⟩

/-- C6 (amended): the club bonus takes 2% of the deposit (rounded to
cents) and splits it equally, rounded to cents, over the activated
achiever-rank holders, the whole cut going to the company pool when
there is no achiever or the share rounds to zero; but the leftover is
forwarded to the pool only when it is positive — when rounding makes the
shares exceed the cut the negative leftover is dropped and the phase
credits `cut - min leftover 0`, which overshoots the cut. -/
theorem claim_C6 (db : DB) (A : ℚ) (ach : List UserRec) (cut per l : ℚ)
    (hach : ach = db.filter (fun u => u.selfActivated && clubAchieverRoles.contains u.role))
    (hcut : cut = round2 (A * (2 / 100)))
    (hper : per = round2 (cut / (ach.length : ℚ)))
    (hl : l = cut - (ach.length : ℚ) * per) :
    (cut ≤ 0 → distributeClubBonus db A = (db, 0)) ∧
    (0 < cut → ach.isEmpty = true →
      distributeClubBonus db A = (addToCompanyPool db cut, cut) ∧
      dbCredit (distributeClubBonus db A).1 = dbCredit db + cut) ∧
    (0 < cut → ach.isEmpty = false → per ≤ 0 →
      dbCredit (distributeClubBonus db A).1 = dbCredit db + cut) ∧
    (0 < cut → ach.isEmpty = false → 0 < per →
      dbCredit (distributeClubBonus db A).1 = dbCredit db + cut - min l 0 ∧
      (0 < l → musdOf (distributeClubBonus db A).1 COMPANY_USER_ID
          = musdOf db COMPANY_USER_ID + l) ∧
      (l ≤ 0 → musdOf (distributeClubBonus db A).1 COMPANY_USER_ID
          = musdOf db COMPANY_USER_ID)) := by
  refine ⟨?_, ?_, ?_, ?_⟩
  · intro h
    simp only [distributeClubBonus]
    rw [← hcut, if_pos h]
  · intro h he
    simp only [distributeClubBonus]
    rw [← hcut, if_neg (not_le.2 h), ← hach, if_pos he]
    exact ⟨rfl, by rw [addPool_dbCredit, if_neg (not_le.2 h)]⟩
  · intro h he hp
    simp only [distributeClubBonus]
    rw [← hcut, if_neg (not_le.2 h), ← hach,
      if_neg (by rw [he]; exact Bool.false_ne_true), ← hper, if_pos hp]
    rw [addPool_dbCredit, if_neg (not_le.2 h)]
  · intro h he hp
    have hrows : ∀ u ∈ ach, (getUser db u.id).isSome := by
      intro u hu
      rw [hach] at hu
      exact mem_getUser_isSome (List.mem_filter.1 hu).1
    have hd1 : dbCredit (ach.foldl (fun d u => creditClubIncome d u.id per) db)
        = dbCredit db + ach.length * per := foldClub_dbCredit per ach db hrows
    have hm : musdOf (ach.foldl (fun d u => creditClubIncome d u.id per) db) COMPANY_USER_ID
        = musdOf db COMPANY_USER_ID :=
      foldClub_obs (fun u => u.balanceMusd) 0 (fun _ _ => rfl) per ach db COMPANY_USER_ID
    obtain ⟨kc, hkc⟩ := round2_exists_cents (A * (2 / 100))
    obtain ⟨kp, hkp⟩ := round2_exists_cents (cut / (ach.length : ℚ))
    have hc2 : cut = (kc : ℚ) / 100 := hcut.trans hkc
    have hp2 : per = (kp : ℚ) / 100 := hper.trans hkp
    have hcast : cut - (ach.length : ℚ) * per = ((kc - (ach.length : ℤ) * kp : ℤ) : ℚ) / 100 := by
      rw [hc2, hp2]
      push_cast
      ring
    have hleft : round2 (cut - (ach.length : ℚ) * per) = l := by
      rw [hcast, round2_cents, ← hcast, ← hl]
    simp only [distributeClubBonus]
    rw [← hcut, if_neg (not_le.2 h), ← hach,
      if_neg (by rw [he]; exact Bool.false_ne_true), ← hper, if_neg (not_le.2 hp), hleft]
    by_cases hl0 : 0 < l
    · rw [if_pos hl0]
      dsimp only
      refine ⟨?_, ?_, ?_⟩
      · rw [addPool_dbCredit, if_neg (not_le.2 hl0), hd1, min_eq_right (le_of_lt hl0), hl]
        ring
      · intro _
        rw [addPool_musdOf_company _ hl0, hm]
      · intro hle
        exact absurd hl0 (not_lt.2 hle)
    · rw [if_neg hl0]
      have hle : l ≤ 0 := not_lt.1 hl0
      refine ⟨?_, ?_, ?_⟩
      · rw [hd1, min_eq_left hle, hl]
        ring
      · intro hl0p
        exact absurd hl0p hl0
      · intro _
        exact hm

/-- C6 counterexample: a 25-unit deposit with three activated
Life Changers: the 2% cut is 0.50 but each achiever's rounded share is
0.17, so 0.51 is credited — more than the cut — and the negative
leftover is silently dropped instead of reconciled. -/
theorem claim_C6_counterexample :
    round2 (25 * (2 / 100)) = 1 / 2 ∧
    dbCredit (distributeClubBonus
      [{ id := 1, role := "life_changer", selfActivated := true },
       { id := 2, role := "life_changer", selfActivated := true },
       { id := 3, role := "life_changer", selfActivated := true }] 25).1 = 51 / 100 ∧
    ((51 / 100 : ℚ) ≠ 1 / 2) := by
  refine ⟨by norm_num [round2], ?_, by norm_num⟩
  norm_num +decide [distributeClubBonus, round2, clubAchieverRoles, creditClubIncome,
    addToCompanyPool, getCompanyUser, getUser, setUser, dbCredit, creditOf,
    COMPANY_USER_ID]

/-- C6 witness: with no achiever on file, the whole 2-unit cut of a
100-unit deposit goes to the company pool. -/
theorem claim_C6_witness :
    (0 : ℚ) < 2 ∧
    distributeClubBonus [] 100 = (addToCompanyPool [] 2, 2) ∧
    dbCredit (distributeClubBonus [] 100).1 = dbCredit [] + 2 := by
  have h := (claim_C6 [] 100 [] 2 0 2 rfl (by norm_num [round2]) (by norm_num [round2])
    (by norm_num)).2.1 (by norm_num) rfl
  exact ⟨by norm_num, h.1, h.2⟩

/-- C10 counterexample: user 1's direct sponsor (user 2) exists but
holds the unranked role, whose level-1 percentage is zero — the report
of a 100-unit deposit contains no line item at all for that level. -/
theorem claim_C10_counterexample :
    (getUplines [{ id := 1, referrerId := some 2 }, { id := 2 }] 1).length = 1 ∧
    (referralPhase [{ id := 1, referrerId := some 2 }, { id := 2 }] 1 100).2 = [] := by
  constructor <;>
    norm_num +decide [getUplines, getUplinesAux, getUser, referralPhase, referralStep,
      levelPct, ROLE_LEVEL1_PCT, roleKey, lowerString, lowerChar, round2,
      clubAchieverRoles, addToCompanyPool, getCompanyUser, creditClubIncome,
      COMPANY_USER_ID, setUser]
